import Mathlib

/-!
Shallow embedding of `src/sync-linear-to-notion.js` (a Linear → Notion sync
script).  Pure helpers become Lean functions; the stateful engine (schema
cache, Notion page store, rate-limit retry, run loop) becomes explicit state
passing over a world record `W`.  Network responses are modelled as a queue of
statuses inside `W`; when the queue is exhausted every further call succeeds
with status 200 (the "all destination calls succeed" environment).  Every
remote call appends an `Event` to a trace so that "no call is issued" claims
can be stated exactly.
-/

set_option maxHeartbeats 1000000

namespace LinearNotionSync

/-- JS runtime value: the subset of shapes the normalization helpers inspect
(`null`/`undefined`, strings, numbers, and objects that may carry a `name`
field). -/
inductive JSVal where
  | null : JSVal
  | str : String → JSVal
  | num : Int → JSVal
  /-- an object whose `name` field holds the given JS value -/
  | obj : JSVal → JSVal
  /-- an object without a `name` field (or any other unhandled shape) -/
  | objNoName : JSVal
deriving DecidableEq

/-- JS `String.prototype.toLowerCase`, modelled character-wise (ASCII case
folding, which is all the compared literals need). -/
def jsToLower (s : String) : String := String.mk (s.data.map Char.toLower)

/-- JS `String.prototype.trim`: drop whitespace from both ends. -/
def jsTrim (s : String) : String :=
  String.mk (((s.data.dropWhile Char.isWhitespace).reverse.dropWhile Char.isWhitespace).reverse)

/-- `REQUIRED_LABEL` default (src line 11). -/
def REQUIRED_LABEL : String := "Customer - Hapag Lloyd"

/-- `normalizeOptionName` (src lines 15-27): null → null; string → trimmed or
null when empty; number → stringified; object with a non-blank string `name`
→ trimmed name; anything else → null. -/
def normalizeOptionName : JSVal → Option String
  | .null => none
  | .str v =>
    let s := jsTrim v
    if s.length = 0 then none else some s
  | .num n => some (toString n)
  | .obj nameField =>
    match nameField with
    | .str s => if jsTrim s = "" then none else some (jsTrim s)
    | _ => none
  | .objNoName => none

/-- `mapPriorityToText` (src lines 30-38). -/
def mapPriorityToText : JSVal → Option String
  | .null => none
  | .str p => if jsTrim p = "" then none else some (jsTrim p)
  | .num p =>
    some (if p = 5 then "Very Low" else if p = 4 then "Low"
      else if p = 3 then "Medium" else if p = 2 then "High"
      else if p = 1 then "Urgent" else if p = 0 then "None"
      else toString p)
  | .obj _ => none
  | .objNoName => none

/-- The fixed chunk size `MAX` of `toRichTextArray` (src line 44). -/
def MAX_CHUNK : Nat := 1900

/-- The chunking loop of `toRichTextArray` (src lines 46-48): successive
slices of at most `MAX_CHUNK` characters. -/
def chunkChars (s : List Char) : List (List Char) :=
  if s = [] then [] else s.take MAX_CHUNK :: chunkChars (s.drop MAX_CHUNK)
termination_by s.length
decreasing_by
  simp only [List.length_drop]
  have h0 : 0 < s.length := List.length_pos.mpr (by assumption)
  simp only [MAX_CHUNK]
  omega

/-- `toRichTextArray` (src lines 41-50), keeping only the text content of each
chunk.  The leading falsiness guard (`if (!str) return []`) is the `s = ""`
test. -/
def toRichTextArray (s : String) : List String :=
  if s = "" then [] else (chunkChars s.data).map String.mk

/-- First label (in the record's label-list order) that case-insensitively
equals one of the candidates: the `pickFirst` closure of `mapExtras`
(src lines 270-271). -/
def pickFirst (labels cands : List String) : Option String :=
  labels.find? (fun l => cands.any (fun c => jsToLower c == jsToLower l))

/-- JS `a || b` on a possibly-absent string. -/
def jsOr (v : Option String) (b : String) : String :=
  match v with
  | some s => if s = "" then b else s
  | none => b

/-- Result record of `mapExtras`. -/
structure Extras where
  moduleVal : String
  subareaVal : String
  typeVal : String
  cycleVal : String
deriving DecidableEq

def MODULE_LABELS : List String := ["Planning", "Procurement", "Post-bunkering"]
def SUBAREA_LABELS : List String := ["Planning", "Lab", "Approval"]
def TYPE_LABELS : List String := ["Features", "Bug", "Chore"]

/-- `mapExtras` (src lines 266-278). -/
def mapExtras (labels : List String) (cycleName : String) : Extras :=
  { moduleVal := jsOr (pickFirst labels MODULE_LABELS) ""
    subareaVal := jsOr (pickFirst labels SUBAREA_LABELS) ""
    typeVal := jsOr (pickFirst labels TYPE_LABELS)
      (if labels.contains "Features" then "Features" else "")
    cycleVal := if cycleName = "" then "" else cycleName }

/-- Spec-side helper (for the amended C8 reading): the first label in the
record's label-list order that case-insensitively matches some candidate,
written as primitive recursion over the label list. -/
def firstMatching (labels cands : List String) : Option String :=
  match labels with
  | [] => none
  | l :: ls => if cands.any (fun c => jsToLower c == jsToLower l) then some l
      else firstMatching ls cands

/-- An upstream issue as selected by the GraphQL query (src lines 100-114).
`labelNodes` holds `labels.nodes[].name` with `none` for a missing node or
name; `state`/`cycle` are the optional `state.name` / `cycle.name`. -/
structure Issue where
  identifier : String
  title : Option String
  url : String
  priority : JSVal
  dueDate : Option String
  state : Option String
  labelNodes : List (Option String)
  cycle : Option String
  description : Option String
deriving DecidableEq

/-- `(issue.labels?.nodes || []).map(n => n?.name || "").filter(Boolean)`
(src line 283). -/
def issueLabels (i : Issue) : List String :=
  (i.labelNodes.map (fun n => n.getD "")).filter (fun s => s != "")

/-- The label gate test (src line 286). -/
def hasRequiredLabel (i : Issue) : Bool :=
  (issueLabels i).any (fun n => jsToLower n == jsToLower REQUIRED_LABEL)

/-- The six normalized select values computed by `upsert` (src lines 298-303). -/
structure Mapped where
  statusName : Option String
  priorityVal : Option String
  moduleNorm : Option String
  subareaNorm : Option String
  typeNorm : Option String
  cycleNorm : Option String
deriving DecidableEq

def optToJS : Option String → JSVal
  | some s => .str s
  | none => .null

def mappedOf (i : Issue) : Mapped :=
  let labels := issueLabels i
  let ex := mapExtras labels ((i.cycle).getD "")
  { statusName := normalizeOptionName (optToJS i.state)
    priorityVal := normalizeOptionName (optToJS (mapPriorityToText i.priority))
    moduleNorm := normalizeOptionName (.str ex.moduleVal)
    subareaNorm := normalizeOptionName (.str ex.subareaVal)
    typeNorm := normalizeOptionName (.str ex.typeVal)
    cycleNorm := normalizeOptionName (.str ex.cycleVal) }

/-- A Notion database property definition: its `type` string and, for
`select`/`multi_select` properties, the option names. -/
structure PropDef where
  type : String
  options : List String
deriving DecidableEq

/-- The database schema, in property insertion order. -/
abbrev Schema := List (String × PropDef)

def getPropDef (db : Schema) (propName : String) : Option PropDef :=
  (db.find? (fun p => p.1 == propName)).map (fun p => p.2)

/-- A written Notion property value. -/
inductive PropValue where
  | titleV (content : String)
  | richText (chunks : List String)
  | selectV (name : String)
  | urlV (u : String)
  | dateV (start : String) (timeZone : Option String)
deriving DecidableEq

/-- JS object-key assignment on an association list: overwrite the existing
key, else append. -/
def setProp (ps : List (String × PropValue)) (k : String) (v : PropValue) :
    List (String × PropValue) :=
  if ps.any (fun p => p.1 == k) then ps.map (fun p => if p.1 == k then (k, v) else p)
  else ps ++ [(k, v)]

def getVal (ps : List (String × PropValue)) (k : String) : Option PropValue :=
  (ps.find? (fun p => p.1 == k)).map (fun p => p.2)

/-- Fold a list of entries into an association list JS-object style (later
entries overwrite earlier ones); with a non-empty accumulator this is the
semantics of a Notion `PATCH properties` merge. -/
def mergeProps (old entries : List (String × PropValue)) : List (String × PropValue) :=
  entries.foldl (fun acc e => setProp acc e.1 e.2) old

/-- JS truthiness of a possibly-absent string. -/
def jsTruthyOpt : Option String → Bool
  | some s => s != ""
  | none => false

def optStr (v : Option String) : String := v.getD ""

/-- JS string interpolation of a possibly-undefined value. -/
def jsShowOptStr : Option String → String
  | some s => s
  | none => "undefined"

/-- The entries of the `props` object literal of `upsert` (src lines 316-333),
in source order; the conditional spreads contribute nothing when the guard is
falsy. -/
def propEntries (titlePropName : String) (i : Issue) (m : Mapped) (now : String) :
    List (String × PropValue) :=
  [(titlePropName, .titleV ((i.title).getD "")),
   ("Linear Issue ID", .richText [i.identifier]),
   ("Linear URL", .urlV i.url)]
  ++ (if jsTruthyOpt m.statusName then [("Status", .selectV (optStr m.statusName))] else [])
  ++ (if jsTruthyOpt m.priorityVal then [("Priority", .selectV (optStr m.priorityVal))] else [])
  ++ (if jsTruthyOpt i.dueDate then [("Due Date", .dateV (optStr i.dueDate) none)] else [])
  ++ (if jsTruthyOpt m.moduleNorm then [("Module", .selectV (optStr m.moduleNorm))] else [])
  ++ (if jsTruthyOpt m.subareaNorm then [("Sub-Area", .selectV (optStr m.subareaNorm))] else [])
  ++ (if jsTruthyOpt m.typeNorm then [("Type", .selectV (optStr m.typeNorm))] else [])
  ++ (if jsTruthyOpt m.cycleNorm then [("Cycle", .selectV (optStr m.cycleNorm))] else [])
  ++ [("Last Sync", .dateV now (some "Europe/Berlin")),
      ("Description", .richText (toRichTextArray ((i.description).getD "")))]

/-- The `props` object built by `upsert` (before the optional extra `Title`
rich-text property). -/
def buildProps (titlePropName : String) (i : Issue) (m : Mapped) (now : String) :
    List (String × PropValue) :=
  mergeProps [] (propEntries titlePropName i m now)

/-- The run summary object (src lines 75-82). -/
structure Summary where
  processed : Nat
  created : Nat
  updated : Nat
  skippedNoLabel : Nat
  errors : Nat
  items : List String
deriving DecidableEq

/-- A destination page: its store-assigned id and its properties. -/
structure Page where
  pid : Nat
  props : List (String × PropValue)
deriving DecidableEq

/-- An HTTP response supplied by the environment: status code and body text. -/
structure Resp where
  status : Nat
  body : String
deriving DecidableEq

/-- One remote call, recorded in the world's trace. -/
inductive Event where
  | getDb
  | patchSchema (propertyName optionName : String) (requested : List String)
  | queryDb (identifier : String)
  | write (method endpoint : String)
  | backoff (ms : Nat)
deriving DecidableEq

/-- The errors the script can throw, mirroring its `new Error(...)` sites. -/
inductive SyncError where
  | linearQueryFailed (status : Nat) (body : String)
  | getDatabaseFailed (status : Nat) (body : String)
  | noTitleProperty
  | schemaUpdateFailed (optionName propertyName : String) (status : Nat) (body : String)
  | queryByIssueIdFailed (status : Nat) (body : String)
  | writeFailed (method endpoint : String) (status : Nat) (body : String)
deriving DecidableEq

/-- The `e.message` strings of the thrown errors. -/
def SyncError.message : SyncError → String
  | .linearQueryFailed s b => "Linear GraphQL failed " ++ toString s ++ ": " ++ b
  | .getDatabaseFailed s b => "Get database failed " ++ toString s ++ ": " ++ b
  | .noTitleProperty => "No title property found on the Notion database."
  | .schemaUpdateFailed o p s b =>
      "Update DB schema (add select option \"" ++ o ++ "\" to \"" ++ p ++ "\") failed "
        ++ toString s ++ ": " ++ b
  | .queryByIssueIdFailed s b => "Query DB by Linear Issue ID failed " ++ toString s ++ ": " ++ b
  | .writeFailed m e s b => m ++ " " ++ e ++ " failed " ++ toString s ++ ": " ++ b

/-- The world: the remote database schema, the module-level schema cache
(`dbSchemaCache`, src line 139), the destination page store, the run summary,
the queue of pending HTTP responses, and the trace of issued calls. -/
structure W where
  remoteSchema : Schema
  dbSchemaCache : Option Schema
  pages : List Page
  nextPageId : Nat
  summary : Summary
  responses : List Resp
  trace : List Event
  nowStr : String
deriving DecidableEq

instance {ε α : Type} [DecidableEq ε] [DecidableEq α] : DecidableEq (Except ε α) := fun x y =>
  match x, y with
  | .ok a, .ok b =>
    if h : a = b then .isTrue (by rw [h]) else .isFalse (fun he => h (Except.ok.inj he))
  | .error e, .error e' =>
    if h : e = e' then .isTrue (by rw [h]) else .isFalse (fun he => h (Except.error.inj he))
  | .ok _, .error _ => .isFalse (fun he => Except.noConfusion he)
  | .error _, .ok _ => .isFalse (fun he => Except.noConfusion he)

/-- Pop the next environment response; an exhausted queue yields plain 200s. -/
def takeResp (w : W) : Resp × W :=
  match w.responses with
  | [] => (⟨200, ""⟩, w)
  | r :: rest => (r, { w with responses := rest })

/-- `res.ok`: status in the 2xx range. -/
def okStatus (n : Nat) : Bool := 200 ≤ n && n < 300

/-- Sequencing of fallible state-passing steps: on error the state at the
throw point is kept (JS exceptions do not roll state back). -/
def bindE {α β : Type} (x : Except SyncError α × W)
    (f : α → W → Except SyncError β × W) : Except SyncError β × W :=
  match x with
  | (.ok a, w) => f a w
  | (.error e, w) => (.error e, w)

/-- `getDatabase` (src lines 141-152): cache hit returns the cache, otherwise
fetch the schema (one `getDb` call), throwing on a non-2xx status. -/
def getDatabase (w : W) : Except SyncError Schema × W :=
  match w.dbSchemaCache with
  | some db => (.ok db, w)
  | none =>
    let (r, w₁) := takeResp w
    let w₂ := { w₁ with trace := w₁.trace ++ [.getDb] }
    if okStatus r.status then
      (.ok w₂.remoteSchema, { w₂ with dbSchemaCache := some w₂.remoteSchema })
    else
      (.error (.getDatabaseFailed r.status r.body), w₂)

/-- `getTitlePropertyName` (src lines 154-161): first property whose type is
`title`, else throw. -/
def getTitlePropertyName (w : W) : Except SyncError String × W :=
  bindE (getDatabase w) fun db w₁ =>
    match db.find? (fun p => p.2.type == "title") with
    | some p => (.ok p.1, w₁)
    | none => (.error .noTitleProperty, w₁)

/-- The server-side effect of the schema PATCH: replace the named property's
option list. -/
def setPropOptions (db : Schema) (propName : String) (opts : List String) : Schema :=
  db.map (fun p => if p.1 == propName then (p.1, { p.2 with options := opts }) else p)

/-- `ensureSelectOption` (src lines 163-199). -/
def ensureSelectOption (propertyName : String) (rawOption : JSVal) (w : W) :
    Except SyncError Unit × W :=
  match normalizeOptionName rawOption with
  | none => (.ok (), w)
  | some optionName =>
    bindE (getDatabase w) fun db w₁ =>
      match getPropDef db propertyName with
      | none => (.ok (), w₁)
      | some prop =>
        if prop.type == "select" || prop.type == "multi_select" then
          let existing := prop.options
          if existing.any (fun o => jsToLower o == jsToLower optionName) then
            (.ok (), w₁)
          else
            let nextOptions := existing ++ [optionName]
            let (r, w₂) := takeResp w₁
            let w₃ := { w₂ with
              trace := w₂.trace ++ [.patchSchema propertyName optionName nextOptions] }
            if okStatus r.status then
              let w₄ := { w₃ with
                remoteSchema := setPropOptions w₃.remoteSchema propertyName nextOptions,
                dbSchemaCache := none }
              bindE (getDatabase w₄) fun _ w₅ => (.ok (), w₅)
            else
              (.error (.schemaUpdateFailed optionName propertyName r.status r.body), w₃)
        else (.ok (), w₁)

/-- The guard-plus-call pattern `if (x) await ensureSelectOption(name, x)`
(src lines 306-311). -/
def ensureIf (propName : String) (v : Option String) (w : W) : Except SyncError Unit × W :=
  if jsTruthyOpt v then ensureSelectOption propName (.str (optStr v)) w else (.ok (), w)

/-- `findPageByIssueId` (src lines 201-216): one query call; on success the
first page whose `Linear Issue ID` rich text equals the identifier. -/
def pageIdValue (pg : Page) : Option String :=
  match getVal pg.props "Linear Issue ID" with
  | some (.richText cs) => some (String.join cs)
  | _ => none

def findPageByIssueId (identifier : String) (w : W) : Except SyncError (Option Page) × W :=
  let (r, w₁) := takeResp w
  let w₂ := { w₁ with trace := w₁.trace ++ [.queryDb identifier] }
  if okStatus r.status then
    (.ok (w₂.pages.find? (fun pg => pageIdValue pg == some identifier)), w₂)
  else
    (.error (.queryByIssueIdFailed r.status r.body), w₂)

/-- `notionWrite` (src lines 218-237): status 429 sleeps 500 ms and retries
recursively with no retry ceiling; a 2xx applies the destination effect
`eff` once; any other status throws. -/
def notionWrite (method endpoint : String) (eff : W → W) (w : W) :
    Except SyncError Unit × W :=
  match h : w.responses with
  | [] => (.ok (), eff { w with trace := w.trace ++ [.write method endpoint] })
  | r :: rest =>
    let w₁ : W := { w with responses := rest, trace := w.trace ++ [.write method endpoint] }
    if r.status = 429 then
      notionWrite method endpoint eff { w₁ with trace := w₁.trace ++ [.backoff 500] }
    else if okStatus r.status then (.ok (), eff w₁)
    else (.error (.writeFailed method endpoint r.status r.body), w₁)
termination_by w.responses.length
decreasing_by
  simp only [h, List.length_cons]
  omega

def pageEndpoint (pid : Nat) : String := "https://api.notion.com/v1/pages/" ++ toString pid

/-- Destination effect of `PATCH /v1/pages/{id}`: merge the sent properties
into the page with that id. -/
def patchPageEff (pid : Nat) (props : List (String × PropValue)) (w : W) : W :=
  { w with pages := w.pages.map (fun pg =>
      if pg.pid = pid then { pg with props := mergeProps pg.props props } else pg) }

/-- Destination effect of `POST /v1/pages`: append a fresh page holding the
sent properties. -/
def createPageEff (props : List (String × PropValue)) (w : W) : W :=
  { w with pages := w.pages ++ [{ pid := w.nextPageId, props := props }],
           nextPageId := w.nextPageId + 1 }

/-- `appendSyncComment` (src lines 240-263): one block-children write; the
block content itself is not part of the page-property store. -/
def appendSyncComment (pageId : Nat) (w : W) : Except SyncError Unit × W :=
  notionWrite "PATCH" ("https://api.notion.com/v1/blocks/" ++ toString pageId ++ "/children")
    id w

/-- Terminal states of one record's upsert. -/
inductive Action where
  | created
  | updated
  | skipped
deriving DecidableEq

def lastSyncProps (now : String) : List (String × PropValue) :=
  [("Last Sync", .dateV now (some "Europe/Berlin"))]

/-- The tail of `upsert` after the create/update write (src lines 362-372):
comment append, then the final `Last Sync` re-patch. -/
def finishUpsert (pageId : Nat) (action : Action) (w : W) : Except SyncError Action × W :=
  bindE (appendSyncComment pageId w) fun _ w₁ =>
  bindE (notionWrite "PATCH" (pageEndpoint pageId)
      (patchPageEff pageId (lastSyncProps w₁.nowStr)) w₁) fun _ w₂ =>
  (.ok action, w₂)

def skippedLine (i : Issue) : String :=
  "Skipped (no label): " ++ i.identifier ++ " — " ++ jsShowOptStr i.title

def createdLine (i : Issue) : String :=
  "Created: " ++ i.identifier ++ " — " ++ jsShowOptStr i.title

def updatedLine (i : Issue) : String :=
  "Updated: " ++ i.identifier ++ " — " ++ jsShowOptStr i.title

def errorLine (i : Issue) (e : SyncError) : String :=
  "Error: " ++ i.identifier ++ " — " ++ e.message

/-- `upsert` (src lines 281-373). -/
def upsert (i : Issue) (w : W) : Except SyncError Action × W :=
  if !(hasRequiredLabel i) then
    (.ok .skipped,
     { w with summary := { w.summary with
         skippedNoLabel := w.summary.skippedNoLabel + 1,
         items := w.summary.items ++ [skippedLine i] } })
  else
    let m := mappedOf i
    bindE (ensureIf "Status" m.statusName w) fun _ w₁ =>
    bindE (ensureIf "Priority" m.priorityVal w₁) fun _ w₂ =>
    bindE (ensureIf "Module" m.moduleNorm w₂) fun _ w₃ =>
    bindE (ensureIf "Sub-Area" m.subareaNorm w₃) fun _ w₄ =>
    bindE (ensureIf "Type" m.typeNorm w₄) fun _ w₅ =>
    bindE (ensureIf "Cycle" m.cycleNorm w₅) fun _ w₆ =>
    bindE (getTitlePropertyName w₆) fun titlePropName w₇ =>
    bindE (getDatabase w₇) fun db w₈ =>
    let props₀ := buildProps titlePropName i m w₈.nowStr
    let props := if Option.any (fun pd => pd.type == "rich_text") (getPropDef db "Title")
      then setProp props₀ "Title" (.richText [(i.title).getD ""]) else props₀
    bindE (findPageByIssueId i.identifier w₈) fun existing w₉ =>
    match existing with
    | some pg =>
      bindE (notionWrite "PATCH" (pageEndpoint pg.pid) (patchPageEff pg.pid props) w₉)
        fun _ w₁₀ => finishUpsert pg.pid .updated w₁₀
    | none =>
      let newId := w₉.nextPageId
      bindE (notionWrite "POST" "https://api.notion.com/v1/pages" (createPageEff props) w₉)
        fun _ w₁₀ => finishUpsert newId .created w₁₀

/-- `summary.processed++` at loop head (src line 381). -/
def incProcessed (w : W) : W :=
  { w with summary := { w.summary with processed := w.summary.processed + 1 } }

/-- The per-record body of the main loop (src lines 381-396): bump
`processed`, try the upsert, count the outcome; any thrown error is caught
here, counted, and logged with the identifier and message. -/
def processIssue (i : Issue) (w : W) : W :=
  let w₀ := incProcessed w
  match upsert i w₀ with
  | (.ok .created, w₁) =>
    { w₁ with summary := { w₁.summary with
        created := w₁.summary.created + 1,
        items := w₁.summary.items ++ [createdLine i] } }
  | (.ok .updated, w₁) =>
    { w₁ with summary := { w₁.summary with
        updated := w₁.summary.updated + 1,
        items := w₁.summary.items ++ [updatedLine i] } }
  | (.ok .skipped, w₁) => w₁
  | (.error e, w₁) =>
    { w₁ with summary := { w₁.summary with
        errors := w₁.summary.errors + 1,
        items := w₁.summary.items ++ [errorLine i e] } }

def runIssues (issues : List Issue) (w : W) : W :=
  issues.foldl (fun acc i => processIssue i acc) w

/-- One Linear GraphQL page response: HTTP status and body, the yielded issue
nodes, and the `pageInfo.hasNextPage` flag. -/
structure FeedPage where
  status : Nat
  body : String
  nodes : List Issue
  hasNextPage : Bool
deriving DecidableEq

/-- The main run (src lines 376-435) over a feed of pages: a non-2xx page
fetch throws `Linear GraphQL failed ...` which escapes the record loop and
aborts the run (returned as the fatal error); otherwise each page's records
are processed one at a time and pagination stops when `hasNextPage` is
false. -/
def processPages : List FeedPage → W → W × Option SyncError
  | [], w => (w, none)
  | p :: rest, w =>
    if okStatus p.status then
      let w₁ := runIssues p.nodes w
      if p.hasNextPage then processPages rest w₁ else (w₁, none)
    else (w, some (.linearQueryFailed p.status p.body))

/-- Some destination page carries the given external identifier. -/
def hasMatch (w : W) (identifier : String) : Prop :=
  ∃ pg ∈ w.pages, pageIdValue pg = some identifier

/-- The schema cache is either empty or agrees with the remote schema (the
single-threaded invariant of the script). -/
def CacheOK (w : W) : Prop :=
  w.dbSchemaCache = none ∨ w.dbSchemaCache = some w.remoteSchema

/-- The remote schema has a title-typed property. -/
def titled (db : Schema) : Prop := ∃ p ∈ db, p.2.type = "title"

/-- Page ids are distinct and below the id counter. -/
def pagesWF (w : W) : Prop :=
  (w.pages.map (fun pg => pg.pid)).Nodup ∧ ∀ pg ∈ w.pages, pg.pid < w.nextPageId

/-- A run environment in which every destination call succeeds. -/
def Inv (w : W) : Prop :=
  w.responses = [] ∧ CacheOK w ∧ titled w.remoteSchema ∧ pagesWF w

/-- The accounting invariant: processed records split exactly into the four
outcomes and the itemized log has one line per processed record. -/
def sumOk (s : Summary) : Prop :=
  s.processed = s.created + s.updated + s.skippedNoLabel + s.errors ∧
  s.items.length = s.processed

def isSchemaPatch : Event → Bool
  | .patchSchema _ _ _ => true
  | _ => false

/-- Number of schema mutations in a trace. -/
def mutCount (t : List Event) : Nat := (t.filter isSchemaPatch).length

def isBackoff : Event → Bool
  | .backoff _ => true
  | _ => false

/-- Number of rate-limit backoffs in a trace. -/
def backoffCount (t : List Event) : Nat := (t.filter isBackoff).length

def initialSummary : Summary := ⟨0, 0, 0, 0, 0, []⟩

/-- A small destination schema used by concrete witnesses. -/
def baseSchema : Schema :=
  [("Name", { type := "title", options := [] }),
   ("Type", { type := "select", options := ["Chore"] })]

/-- A concrete starting world for witnesses. -/
def baseW : W :=
  { remoteSchema := baseSchema
    dbSchemaCache := none
    pages := []
    nextPageId := 1
    summary := initialSummary
    responses := []
    trace := []
    nowStr := "2026-01-01T00:00:00.000Z" }

/-- A labeled issue with every optional field absent. -/
def plainIssue : Issue :=
  { identifier := "ENG-1"
    title := some "Fix pump"
    url := "https://linear.app/x/issue/ENG-1"
    priority := .null
    dueDate := none
    state := none
    labelNodes := [some REQUIRED_LABEL]
    cycle := none
    description := none }

/-- An issue lacking the required label. -/
def unlabeledIssue : Issue :=
  { identifier := "ENG-2"
    title := some "Other customer"
    url := "https://linear.app/x/issue/ENG-2"
    priority := .num 2
    dueDate := none
    state := some "Todo"
    labelNodes := [some "Bug"]
    cycle := none
    description := none }

/-- The key list of a property association list. -/
def keysOf (ps : List (String × PropValue)) : List String := ps.map (fun e => e.1)

/-- The property names paired with their type strings (the part of a schema
that option mutations never change). -/
def schemaTypes (db : Schema) : List (String × String) := db.map (fun p => (p.1, p.2.type))

/-- The summary change of the skipped branch of `upsert`. -/
def skipBump (s : Summary) (i : Issue) : Summary :=
  { s with skippedNoLabel := s.skippedNoLabel + 1, items := s.items ++ [skippedLine i] }

/-- Environment for the rate-limit scenario: the schema read and the lookup
succeed, then the create write receives `n` 429 responses (and succeeds on
the following attempt). -/
def rlW (n : Nat) : W :=
  { baseW with responses := ⟨200, ""⟩ :: ⟨200, ""⟩ :: List.replicate n ⟨429, ""⟩ }

/-- A world already holding a destination page matched to `ENG-1`. -/
def matchedW : W :=
  { baseW with pages := [{ pid := 0, props := [("Linear Issue ID", .richText ["ENG-1"])] }] }

/-- A world whose destination database has no title property, so
`getTitlePropertyName` throws. -/
def noTitleW : W := { baseW with remoteSchema := [] }

/-- The state left behind when `upsert plainIssue` throws on `noTitleW` after
the processed counter was bumped: the schema was read once (filling the
cache) and nothing else changed. -/
def errWitnessW : W :=
  { remoteSchema := []
    dbSchemaCache := some []
    pages := []
    nextPageId := 1
    summary := { initialSummary with processed := 1 }
    responses := []
    trace := [.getDb]
    nowStr := baseW.nowStr }

/-- A 5000-character description. -/
def bigDescription : String := String.mk (List.replicate 5000 'a')

/-- The state reached in the rate-limit scenario after the schema read and the
lookup, just before the create write: only the `n` 429 responses remain. -/
def rlW2 (n : Nat) : W :=
  { remoteSchema := baseSchema
    dbSchemaCache := some baseSchema
    pages := []
    nextPageId := 1
    summary := { initialSummary with processed := 1 }
    responses := List.replicate n ⟨429, ""⟩
    trace := [.getDb, .queryDb "ENG-1"]
    nowStr := baseW.nowStr }

/-- An environment delivering exactly two rate-limit responses. -/
def rlEnvW : W := { baseW with responses := List.replicate 2 ⟨429, "x"⟩ }

theorem chunkChars_nil_eq : chunkChars [] = [] := by
  rw [chunkChars]
  simp

theorem chunkChars_eq_nil {l : List Char} : chunkChars l = [] ↔ l = [] := by
  constructor
  · intro h
    by_contra hl
    rw [chunkChars, if_neg hl] at h
    cases h
  · intro h
    subst h
    exact chunkChars_nil_eq

theorem chunkChars_flatten (l : List Char) : (chunkChars l).flatten = l := by
  induction l using chunkChars.induct with
  | case1 => simp [chunkChars_nil_eq]
  | case2 x hx ih =>
    rw [chunkChars, if_neg hx]
    simp [List.flatten_cons, ih, List.take_append_drop]

theorem chunkChars_mem_le (l : List Char) : ∀ c ∈ chunkChars l, c.length ≤ MAX_CHUNK := by
  induction l using chunkChars.induct with
  | case1 => simp [chunkChars_nil_eq]
  | case2 x hx ih =>
    rw [chunkChars, if_neg hx]
    intro c hc
    rcases List.mem_cons.mp hc with h | h
    · subst h
      rw [List.length_take]
      exact min_le_left _ _
    · exact ih c h

theorem chunkChars_getD (l : List Char) :
    ∀ i : Nat, i + 1 < (chunkChars l).length → ((chunkChars l).getD i []).length = MAX_CHUNK := by
  induction l using chunkChars.induct with
  | case1 =>
    intro i h
    rw [chunkChars_nil_eq] at h
    simp at h
  | case2 x hx ih =>
    intro i h
    rw [chunkChars, if_neg hx] at h ⊢
    cases i with
    | zero =>
      have hne : chunkChars (x.drop MAX_CHUNK) ≠ [] := by
        intro e
        rw [e] at h
        simp at h
      have hdrop : x.drop MAX_CHUNK ≠ [] := fun e => hne (chunkChars_eq_nil.mpr e)
      have hlen : 0 < (x.drop MAX_CHUNK).length := List.length_pos.mpr hdrop
      rw [List.length_drop] at hlen
      simp only [List.getD_cons_zero, List.length_take]
      omega
    | succ i =>
      simp only [List.getD_cons_succ]
      exact ih i (by simpa using Nat.lt_of_succ_lt_succ h)

theorem chunkChars_map_len_5000 (l : List Char) (h : l.length = 5000) :
    (chunkChars l).map List.length = [1900, 1900, 1200] := by
  have h1 : l ≠ [] := by
    intro e
    rw [e] at h
    simp at h
  have hd1 : (l.drop MAX_CHUNK).length = 3100 := by
    simp [List.length_drop, h, MAX_CHUNK]
  have h2 : l.drop MAX_CHUNK ≠ [] := by
    intro e
    rw [e] at hd1
    simp at hd1
  have hd2 : ((l.drop MAX_CHUNK).drop MAX_CHUNK).length = 1200 := by
    simp only [List.length_drop, MAX_CHUNK]
    omega
  have h3 : (l.drop MAX_CHUNK).drop MAX_CHUNK ≠ [] := by
    intro e
    rw [e] at hd2
    simp at hd2
  have hd3 : (((l.drop MAX_CHUNK).drop MAX_CHUNK).drop MAX_CHUNK).length = 0 := by
    simp only [List.length_drop, MAX_CHUNK]
    omega
  have h4 : ((l.drop MAX_CHUNK).drop MAX_CHUNK).drop MAX_CHUNK = [] :=
    List.eq_nil_of_length_eq_zero hd3
  rw [chunkChars, if_neg h1, chunkChars, if_neg h2, chunkChars, if_neg h3, h4, chunkChars_nil_eq]
  simp [List.length_take, h, hd1, hd2, MAX_CHUNK]

theorem string_join_data (ls : List String) :
    (String.join ls).data = (ls.map String.data).flatten := by
  have aux : ∀ (ls : List String) (acc : String),
      (ls.foldl (· ++ ·) acc).data = acc.data ++ (ls.map String.data).flatten := by
    intro ls
    induction ls with
    | nil => intro acc; simp
    | cons s rest ih =>
      intro acc
      simp [List.foldl_cons, ih, String.data_append, List.flatten_cons, List.append_assoc]
  simpa [String.join] using aux ls ""

theorem toRichTextArray_join (s : String) : String.join (toRichTextArray s) = s := by
  by_cases h : s = ""
  · subst h
    rfl
  · rw [toRichTextArray, if_neg h]
    apply String.ext
    rw [string_join_data]
    simp only [List.map_map]
    have hid : (String.data ∘ String.mk) = id := by
      funext l
      rfl
    rw [hid, List.map_id, chunkChars_flatten]

/-- C9: the chunking function splits a string into consecutive chunks of at
most 1900 characters whose in-order concatenation reconstructs the original,
every chunk but possibly the last having length exactly 1900; a
5000-character string yields chunks of lengths 1900, 1900, 1200, and an empty
string yields zero chunks. -/
theorem claim_C9_chunking (s : String) :
    String.join (toRichTextArray s) = s ∧
    (∀ c ∈ toRichTextArray s, c.length ≤ 1900) ∧
    (∀ i : Nat, i + 1 < (toRichTextArray s).length →
      ((toRichTextArray s).getD i "").length = 1900) ∧
    (s.length = 5000 → (toRichTextArray s).map String.length = [1900, 1900, 1200]) ∧
    (s = "" → toRichTextArray s = []) := by
  refine ⟨toRichTextArray_join s, ?_, ?_, ?_, ?_⟩
  · intro c hc
    by_cases h : s = ""
    · rw [toRichTextArray, if_pos h] at hc
      cases hc
    · rw [toRichTextArray, if_neg h] at hc
      rcases List.mem_map.mp hc with ⟨chunk, hchunk, rfl⟩
      exact chunkChars_mem_le s.data chunk hchunk
  · intro i hi
    by_cases h : s = ""
    · rw [toRichTextArray, if_pos h] at hi
      simp at hi
    · rw [toRichTextArray, if_neg h] at hi ⊢
      have hi' : i + 1 < (chunkChars s.data).length := by simpa using hi
      have hget := chunkChars_getD s.data i hi'
      have hsome : (chunkChars s.data).get? i = some ((chunkChars s.data).getD i []) := by
        rw [List.getD_eq_getD_get?]
        exact (List.get?_eq_get (by omega)).trans (by rw [List.getD_eq_getD_get?, List.get?_eq_get (by omega)]; rfl)
      rw [List.getD_eq_getD_get?, List.get?_map, hsome]
      simpa using hget
  · intro h5
    have hne : s ≠ "" := by
      intro e
      rw [e] at h5
      simp at h5
    rw [toRichTextArray, if_neg hne]
    rw [List.map_map]
    have : String.length ∘ String.mk = List.length := by
      funext l
      rfl
    rw [this]
    exact chunkChars_map_len_5000 s.data h5
  · intro h
    subst h
    rfl

theorem claim_C9_witness :
    (toRichTextArray bigDescription).map String.length = [1900, 1900, 1200] ∧
    ((toRichTextArray bigDescription).getD 0 "").length = 1900 ∧
    toRichTextArray "" = [] := by
  have h5 : bigDescription.length = 5000 := by
    show (List.replicate 5000 'a').length = 5000
    simp only [List.length_replicate]
  have hmap := (claim_C9_chunking bigDescription).2.2.2.1 h5
  have hlen : (toRichTextArray bigDescription).length = 3 := by
    have := congrArg List.length hmap
    simpa using this
  refine ⟨hmap, (claim_C9_chunking bigDescription).2.2.1 0 (by omega), ?_⟩
  exact (claim_C9_chunking "").2.2.2.2 rfl

/-- C7: the priority mapping translates numeric priorities through the fixed
table, stringifies out-of-table numbers, trims textual priorities (empty
after trim becomes absent), and maps null to absent. -/
theorem claim_C7_priority_mapping :
    mapPriorityToText .null = none ∧
    (∀ s : String, mapPriorityToText (.str s) = if jsTrim s = "" then none else some (jsTrim s)) ∧
    mapPriorityToText (.num 5) = some "Very Low" ∧
    mapPriorityToText (.num 4) = some "Low" ∧
    mapPriorityToText (.num 3) = some "Medium" ∧
    mapPriorityToText (.num 2) = some "High" ∧
    mapPriorityToText (.num 1) = some "Urgent" ∧
    mapPriorityToText (.num 0) = some "None" ∧
    ∀ n : Int, (n < 0 ∨ 5 < n) → mapPriorityToText (.num n) = some (toString n) := by
  refine ⟨rfl, fun s => rfl, by decide, by decide, by decide, by decide, by decide, by decide, ?_⟩
  intro n hn
  have h5 : ¬(n = 5) := by omega
  have h4 : ¬(n = 4) := by omega
  have h3 : ¬(n = 3) := by omega
  have h2 : ¬(n = 2) := by omega
  have h1 : ¬(n = 1) := by omega
  have h0 : ¬(n = 0) := by omega
  simp [mapPriorityToText, h5, h4, h3, h2, h1, h0]

theorem claim_C7_witness :
    mapPriorityToText (.num 7) = some (toString (7 : Int)) :=
  claim_C7_priority_mapping.2.2.2.2.2.2.2.2 7 (by omega)

theorem pickFirst_eq_firstMatching (labels cands : List String) :
    pickFirst labels cands = firstMatching labels cands := by
  induction labels with
  | nil => rfl
  | cons l ls ih =>
    rw [pickFirst, firstMatching]
    cases h : cands.any (fun c => jsToLower c == jsToLower l) with
    | true => simp [List.find?_cons, h]
    | false => simpa [List.find?_cons, h] using ih

theorem pickFirst_pred {labels cands : List String} {s : String}
    (h : pickFirst labels cands = some s) :
    cands.any (fun c => jsToLower c == jsToLower s) = true := by
  rw [pickFirst] at h
  simpa using List.find?_some h

theorem pickFirst_ne_empty {labels cands : List String} {s : String}
    (hc : cands.any (fun c => jsToLower c == jsToLower "") = false)
    (h : pickFirst labels cands = some s) : s ≠ "" := by
  intro he
  subst he
  rw [pickFirst_pred h] at hc
  cases hc

/-- C8 counterexample: the code picks the first matching label in the
record's label-list order, not the first by the category's precedence list,
and a present literal "Features" label does not override an earlier match:
on labels `["Bug", "Features"]` the type value is `"Bug"`. -/
theorem claim_C8_counterexample :
    ¬ (∀ (labels : List String) (cycleName : String),
        (mapExtras labels cycleName).moduleVal
          = (MODULE_LABELS.find? (fun c => labels.any (fun l => jsToLower l == jsToLower c))).getD "" ∧
        (mapExtras labels cycleName).subareaVal
          = (SUBAREA_LABELS.find? (fun c => labels.any (fun l => jsToLower l == jsToLower c))).getD "" ∧
        (mapExtras labels cycleName).typeVal
          = (TYPE_LABELS.find? (fun c => labels.any (fun l => jsToLower l == jsToLower c))).getD "" ∧
        ("Features" ∈ labels → (mapExtras labels cycleName).typeVal = "Features")) := by
  intro h
  have h2 := (h ["Bug", "Features"] "").2.2.2 (by decide)
  exact absurd h2 (by decide)

/-- C8 (amended): each of module, sub-area and type is the first label in the
record's label-list order that case-insensitively equals some candidate of
the category's fixed list, absent when none matches; the "Features" fallback
for type can never change the result because the literal "Features" label
itself matches the type candidate list. -/
theorem claim_C8_label_selection (labels : List String) (cycleName : String) :
    (mapExtras labels cycleName).moduleVal = (firstMatching labels MODULE_LABELS).getD "" ∧
    (mapExtras labels cycleName).subareaVal = (firstMatching labels SUBAREA_LABELS).getD "" ∧
    (mapExtras labels cycleName).typeVal = (firstMatching labels TYPE_LABELS).getD "" := by
  refine ⟨?_, ?_, ?_⟩
  · show jsOr (pickFirst labels MODULE_LABELS) "" = _
    rw [← pickFirst_eq_firstMatching]
    cases hp : pickFirst labels MODULE_LABELS with
    | none => simp [jsOr]
    | some s =>
      have hs : s ≠ "" := pickFirst_ne_empty (by decide) hp
      simp [jsOr, hs]
  · show jsOr (pickFirst labels SUBAREA_LABELS) "" = _
    rw [← pickFirst_eq_firstMatching]
    cases hp : pickFirst labels SUBAREA_LABELS with
    | none => simp [jsOr]
    | some s =>
      have hs : s ≠ "" := pickFirst_ne_empty (by decide) hp
      simp [jsOr, hs]
  · show jsOr (pickFirst labels TYPE_LABELS)
        (if labels.contains "Features" then "Features" else "") = _
    rw [← pickFirst_eq_firstMatching]
    cases hp : pickFirst labels TYPE_LABELS with
    | none =>
      have hmemn : "Features" ∉ labels := by
        intro hmem
        rw [pickFirst] at hp
        have hall := List.find?_eq_none.mp hp "Features" hmem
        exact hall (by decide)
      have hnf : labels.contains "Features" = false := by
        cases hcb : labels.contains "Features" with
        | false => rfl
        | true => exact absurd (List.elem_iff.mp hcb) hmemn
      simp [jsOr, hnf, hmemn]
    | some s =>
      have hs : s ≠ "" := pickFirst_ne_empty (by decide) hp
      simp [jsOr, hs]

theorem bindE_ok {α β : Type} (a : α) (w : W) (f : α → W → Except SyncError β × W) :
    bindE (.ok a, w) f = f a w := rfl

theorem bindE_error {α β : Type} (e : SyncError) (w : W) (f : α → W → Except SyncError β × W) :
    bindE (.error e, w) f = (.error e, w) := rfl

theorem bindE_summary {α β : Type} {x : Except SyncError α × W}
    {f : α → W → Except SyncError β × W} {s : Summary}
    (hx : (x.2).summary = s) (hf : ∀ a w', ((f a w').2).summary = w'.summary) :
    ((bindE x f).2).summary = s := by
  cases x with
  | mk r w =>
    cases r with
    | ok a => simpa [bindE] using (hf a w).trans hx
    | error e => simpa [bindE] using hx

theorem summary_takeResp (w : W) : ((takeResp w).2).summary = w.summary := by
  cases h : w.responses with
  | nil => simp [takeResp, h]
  | cons r rest => simp [takeResp, h]

theorem summary_getDatabase (w : W) : ((getDatabase w).2).summary = w.summary := by
  cases hc : w.dbSchemaCache with
  | some db => simp [getDatabase, hc]
  | none =>
    cases hr : w.responses with
    | nil =>
      simp only [getDatabase, hc, takeResp, hr]
      split <;> rfl
    | cons r rest =>
      simp only [getDatabase, hc, takeResp, hr]
      split <;> rfl

theorem summary_getTitlePropertyName (w : W) :
    ((getTitlePropertyName w).2).summary = w.summary := by
  rw [getTitlePropertyName]
  refine bindE_summary (summary_getDatabase w) (fun db w₁ => ?_)
  cases hf : db.find? (fun p => p.2.type == "title") with
  | some p => simp [hf]
  | none => simp [hf]

theorem summary_ensureSelectOption (p : String) (v : JSVal) (w : W) :
    ((ensureSelectOption p v w).2).summary = w.summary := by
  rw [ensureSelectOption]
  cases hn : normalizeOptionName v with
  | none => rfl
  | some name =>
    refine bindE_summary (summary_getDatabase w) (fun db w₁ => ?_)
    cases hp : getPropDef db p with
    | none => simp [hp]
    | some prop =>
      simp only [hp]
      by_cases ht : (prop.type == "select" || prop.type == "multi_select") = true
      · rw [if_pos ht]
        by_cases hex : (prop.options.any fun o => jsToLower o == jsToLower name) = true
        · rw [if_pos hex]
        · rw [if_neg hex]
          cases htr : takeResp w₁ with
          | mk r₂ w₂ =>
            have hs₂ : w₂.summary = w₁.summary := by
              have := summary_takeResp w₁
              rw [htr] at this
              exact this
            dsimp only
            split
            · exact bindE_summary ((summary_getDatabase _).trans hs₂) (fun _ _ => rfl)
            · exact hs₂
      · rw [if_neg ht]

theorem summary_ensureIf (p : String) (v : Option String) (w : W) :
    ((ensureIf p v w).2).summary = w.summary := by
  rw [ensureIf]
  by_cases h : jsTruthyOpt v = true
  · rw [if_pos h]
    exact summary_ensureSelectOption _ _ _
  · rw [if_neg h]

theorem summary_findPageByIssueId (identifier : String) (w : W) :
    ((findPageByIssueId identifier w).2).summary = w.summary := by
  rw [findPageByIssueId]
  cases htr : takeResp w with
  | mk r w₁ =>
    have hs := summary_takeResp w
    rw [htr] at hs
    dsimp only
    split <;> exact hs

theorem summary_notionWrite (method endpoint : String) (eff : W → W)
    (heff : ∀ w, (eff w).summary = w.summary) :
    ∀ w : W, ((notionWrite method endpoint eff w).2).summary = w.summary := by
  have aux : ∀ (n : Nat) (w : W), w.responses.length ≤ n →
      ((notionWrite method endpoint eff w).2).summary = w.summary := by
    intro n
    induction n with
    | zero =>
      intro w hw
      have hr : w.responses = [] := List.eq_nil_of_length_eq_zero (Nat.le_zero.mp hw)
      rw [notionWrite]
      split
      · exact heff _
      · next r rest hcons => rw [hr] at hcons; cases hcons
    | succ n ih =>
      intro w hw
      rw [notionWrite]
      split
      · exact heff _
      · next r rest hcons =>
        have hrest : rest.length ≤ n := by
          have := congrArg List.length hcons
          simp only [List.length_cons] at this
          omega
        dsimp only
        by_cases h429 : r.status = 429
        · rw [if_pos h429]
          exact ih _ hrest
        · rw [if_neg h429]
          by_cases hok : okStatus r.status = true
          · rw [if_pos hok]
            exact heff _
          · rw [if_neg hok]
  exact fun w => aux w.responses.length w le_rfl

theorem summary_patchPageEff (pid : Nat) (props : List (String × PropValue)) :
    ∀ w : W, (patchPageEff pid props w).summary = w.summary := fun _ => rfl

theorem summary_createPageEff (props : List (String × PropValue)) :
    ∀ w : W, (createPageEff props w).summary = w.summary := fun _ => rfl

theorem summary_appendSyncComment (pid : Nat) (w : W) :
    ((appendSyncComment pid w).2).summary = w.summary :=
  summary_notionWrite _ _ id (fun _ => rfl) w

theorem summary_finishUpsert (pid : Nat) (a : Action) (w : W) :
    ((finishUpsert pid a w).2).summary = w.summary := by
  rw [finishUpsert]
  refine bindE_summary (summary_appendSyncComment pid w) (fun _ w₁ => ?_)
  exact bindE_summary
    (summary_notionWrite _ _ _ (summary_patchPageEff pid (lastSyncProps w₁.nowStr)) w₁)
    (fun _ _ => rfl)

theorem bindE_not_skipped {α : Type} (x : Except SyncError α × W)
    (f : α → W → Except SyncError Action × W)
    (hf : ∀ a w, (f a w).1 ≠ .ok .skipped) : (bindE x f).1 ≠ .ok Action.skipped := by
  cases x with
  | mk r w =>
    cases r with
    | ok a => simpa [bindE] using hf a w
    | error e => simp [bindE]

theorem finishUpsert_not_skipped (pid : Nat) (a : Action) (ha : a ≠ Action.skipped) (w : W) :
    (finishUpsert pid a w).1 ≠ .ok Action.skipped := by
  rw [finishUpsert]
  refine bindE_not_skipped _ _ (fun _ w₁ => ?_)
  refine bindE_not_skipped _ _ (fun _ w₂ => ?_)
  simpa using ha

theorem upsert_skip {i : Issue} (h : hasRequiredLabel i = false) (w : W) :
    upsert i w = (.ok .skipped, { w with summary := skipBump w.summary i }) := by
  rw [upsert, if_pos (by simp [h])]
  rfl

theorem summary_upsert_of_label {i : Issue} (h : hasRequiredLabel i = true) (w : W) :
    ((upsert i w).2).summary = w.summary := by
  rw [upsert, if_neg (by simp [h])]
  refine bindE_summary (summary_ensureIf _ _ _) (fun _ w₁ => ?_)
  refine bindE_summary (summary_ensureIf _ _ _) (fun _ w₂ => ?_)
  refine bindE_summary (summary_ensureIf _ _ _) (fun _ w₃ => ?_)
  refine bindE_summary (summary_ensureIf _ _ _) (fun _ w₄ => ?_)
  refine bindE_summary (summary_ensureIf _ _ _) (fun _ w₅ => ?_)
  refine bindE_summary (summary_ensureIf _ _ _) (fun _ w₆ => ?_)
  refine bindE_summary (summary_getTitlePropertyName _) (fun tn w₇ => ?_)
  refine bindE_summary (summary_getDatabase _) (fun db w₈ => ?_)
  refine bindE_summary (summary_findPageByIssueId _ _) (fun existing w₉ => ?_)
  cases existing with
  | some pg =>
    refine bindE_summary (summary_notionWrite _ _ _ (summary_patchPageEff _ _) _)
      (fun _ w₁₀ => ?_)
    exact summary_finishUpsert _ _ _
  | none =>
    refine bindE_summary (summary_notionWrite _ _ _ (summary_createPageEff _) _)
      (fun _ w₁₀ => ?_)
    exact summary_finishUpsert _ _ _

theorem upsert_not_skipped_of_label {i : Issue} (h : hasRequiredLabel i = true) (w : W) :
    (upsert i w).1 ≠ .ok Action.skipped := by
  rw [upsert, if_neg (by simp [h])]
  refine bindE_not_skipped _ _ (fun _ w₁ => ?_)
  refine bindE_not_skipped _ _ (fun _ w₂ => ?_)
  refine bindE_not_skipped _ _ (fun _ w₃ => ?_)
  refine bindE_not_skipped _ _ (fun _ w₄ => ?_)
  refine bindE_not_skipped _ _ (fun _ w₅ => ?_)
  refine bindE_not_skipped _ _ (fun _ w₆ => ?_)
  refine bindE_not_skipped _ _ (fun tn w₇ => ?_)
  refine bindE_not_skipped _ _ (fun db w₈ => ?_)
  refine bindE_not_skipped _ _ (fun existing w₉ => ?_)
  cases existing with
  | some pg =>
    refine bindE_not_skipped _ _ (fun _ w₁₀ => ?_)
    exact finishUpsert_not_skipped _ _ (by simp) _
  | none =>
    refine bindE_not_skipped _ _ (fun _ w₁₀ => ?_)
    exact finishUpsert_not_skipped _ _ (by simp) _

/-- C2 counterexample: the skipped branch also appends one line to the
summary's itemized log, so "no other destination or summary state changes"
beyond the counter is not literally true. -/
theorem claim_C2_counterexample :
    ¬ (∀ (i : Issue) (w : W), hasRequiredLabel i = false →
        upsert i w = (.ok .skipped,
          { w with summary := { w.summary with
              skippedNoLabel := w.summary.skippedNoLabel + 1 } })) := by
  intro h
  have := h unlabeledIssue baseW (by decide)
  exact absurd this (by decide)

/-- C2 (amended): for a record lacking the required label (case-insensitive),
upsert returns `skipped` immediately and the world is unchanged except that
the skipped counter is incremented and one line is appended to the itemized
log — in particular no schema read, no schema mutation, and no destination
write or lookup call is issued (the trace is untouched) and the page store is
unchanged. -/
theorem claim_C2_label_gate (i : Issue) (w : W) (h : hasRequiredLabel i = false) :
    upsert i w = (.ok .skipped,
      { w with summary := { w.summary with
          skippedNoLabel := w.summary.skippedNoLabel + 1,
          items := w.summary.items ++ [skippedLine i] } }) := by
  rw [upsert, if_pos (by simp [h])]

theorem claim_C2_witness :
    upsert unlabeledIssue baseW = (.ok .skipped,
      { baseW with summary := { baseW.summary with
          skippedNoLabel := baseW.summary.skippedNoLabel + 1,
          items := baseW.summary.items ++ [skippedLine unlabeledIssue] } }) :=
  claim_C2_label_gate unlabeledIssue baseW (by decide)

/-- C5: a non-2xx feed page fetch aborts the entire run with an error carrying
the status code and response body (no further record is processed), while an
exception thrown inside one record's upsert is caught at the per-record
boundary: the errors counter is incremented, a log line with the record's
identifier and the error message is appended, and the loop continues with the
remaining records. -/
theorem claim_C5_error_propagation :
    (∀ (p : FeedPage) (rest : List FeedPage) (w : W), okStatus p.status = false →
      processPages (p :: rest) w = (w, some (.linearQueryFailed p.status p.body))) ∧
    (∀ (i : Issue) (rest : List Issue) (w w' : W) (e : SyncError),
      upsert i (incProcessed w) = (.error e, w') →
      runIssues (i :: rest) w = runIssues rest
        { w' with summary := { w'.summary with
            errors := w'.summary.errors + 1,
            items := w'.summary.items ++ [errorLine i e] } }) := by
  constructor
  · intro p rest w h
    simp [processPages, h]
  · intro i rest w w' e h
    simp [runIssues, processIssue, h]

theorem claim_C5_witness :
    processPages [{ status := 500, body := "server error", nodes := [], hasNextPage := true }]
        baseW = (baseW, some (.linearQueryFailed 500 "server error")) ∧
    runIssues [plainIssue] noTitleW = runIssues []
      { errWitnessW with summary := { errWitnessW.summary with
          errors := errWitnessW.summary.errors + 1,
          items := errWitnessW.summary.items ++ [errorLine plainIssue .noTitleProperty] } } :=
  ⟨claim_C5_error_propagation.1 _ [] baseW (by decide),
   claim_C5_error_propagation.2 plainIssue [] noTitleW errWitnessW .noTitleProperty (by decide)⟩

theorem processIssue_sumOk (i : Issue) {w : W} (h : sumOk w.summary) :
    sumOk (processIssue i w).summary := by
  obtain ⟨h1, h2⟩ := h
  rw [processIssue]
  dsimp only
  cases hlab : hasRequiredLabel i with
  | false =>
    rw [upsert_skip hlab]
    refine ⟨?_, ?_⟩ <;> simp [skipBump, incProcessed, List.length_append, h2] <;> omega
  | true =>
    have hs := summary_upsert_of_label hlab (incProcessed w)
    have hns := upsert_not_skipped_of_label hlab (incProcessed w)
    cases hu : upsert i (incProcessed w) with
    | mk r w₁ =>
      rw [hu] at hs hns
      have hs' : w₁.summary = { w.summary with processed := w.summary.processed + 1 } := hs
      cases r with
      | ok a =>
        cases a with
        | created =>
          refine ⟨?_, ?_⟩ <;> simp [hs', List.length_append, h2] <;> omega
        | updated =>
          refine ⟨?_, ?_⟩ <;> simp [hs', List.length_append, h2] <;> omega
        | skipped => exact absurd rfl hns
      | error e =>
        refine ⟨?_, ?_⟩ <;> simp [hs', List.length_append, h2] <;> omega

theorem runIssues_sumOk (l : List Issue) {w : W} (h : sumOk w.summary) :
    sumOk (runIssues l w).summary := by
  induction l generalizing w with
  | nil => simpa [runIssues] using h
  | cons i rest ih =>
    rw [runIssues, List.foldl_cons]
    exact ih (processIssue_sumOk i h)

/-- C10: the accounting invariant — after any run of the main loop the
processed counter equals the sum of the created, updated, skipped and errored
counters, and the itemized log holds exactly one line per processed record
(each record ends in exactly one of the four outcomes). -/
theorem claim_C10_accounting (pages : List FeedPage) (w : W) (h : sumOk w.summary) :
    sumOk ((processPages pages w).1).summary := by
  induction pages generalizing w with
  | nil => simpa [processPages] using h
  | cons p rest ih =>
    rw [processPages]
    by_cases hok : okStatus p.status = true
    · rw [if_pos hok]
      dsimp only
      by_cases hnp : p.hasNextPage = true
      · rw [if_pos hnp]
        exact ih _ (runIssues_sumOk p.nodes h)
      · rw [if_neg hnp]
        exact runIssues_sumOk p.nodes h
    · rw [if_neg hok]
      exact h

theorem claim_C10_witness :
    sumOk ((processPages [FeedPage.mk 200 "" [unlabeledIssue] false] baseW).1).summary :=
  claim_C10_accounting _ baseW ⟨rfl, rfl⟩

theorem mutCount_append (t s : List Event) : mutCount (t ++ s) = mutCount t + mutCount s := by
  simp [mutCount, List.filter_append]

theorem takeResp_nil {w : W} (h : w.responses = []) : takeResp w = (⟨200, ""⟩, w) := by
  simp [takeResp, h]

theorem getPropDef_setPropOptions_self (db : Schema) (p : String) (opts : List String) :
    getPropDef (setPropOptions db p opts) p
      = (getPropDef db p).map (fun pd => { pd with options := opts }) := by
  induction db with
  | nil => rfl
  | cons e rest ih =>
    by_cases h : (e.1 == p) = true
    · have he : e.1 = p := by simpa using h
      have hf : setPropOptions (e :: rest) p opts
          = (e.1, { e.2 with options := opts }) :: setPropOptions rest p opts := by
        simp [setPropOptions, he]
      rw [hf]
      simp only [getPropDef, List.find?_cons, h]
      rfl
    · have hb : (e.1 == p) = false := by simpa using h
      have hne : ¬(e.1 = p) := by simpa using h
      have hf : setPropOptions (e :: rest) p opts = e :: setPropOptions rest p opts := by
        simp [setPropOptions, hne]
      rw [hf]
      simp only [getPropDef, List.find?_cons, hb]
      simp only [getPropDef] at ih
      exact ih

theorem getDatabase_exec {w : W} (hresp : w.responses = []) (hc : CacheOK w) :
    ∃ w', getDatabase w = (.ok w.remoteSchema, w') ∧
      w'.remoteSchema = w.remoteSchema ∧ w'.dbSchemaCache = some w.remoteSchema ∧
      w'.responses = [] ∧ w'.pages = w.pages ∧ w'.nextPageId = w.nextPageId ∧
      w'.summary = w.summary ∧ w'.nowStr = w.nowStr ∧
      (∃ t, w'.trace = w.trace ++ t) ∧
      mutCount w'.trace = mutCount w.trace := by
  cases hc with
  | inl hnone =>
    refine ⟨{ w with dbSchemaCache := some w.remoteSchema, trace := w.trace ++ [.getDb] },
      ?_, rfl, rfl, hresp, rfl, rfl, rfl, rfl, ⟨[.getDb], rfl⟩, ?_⟩
    · rw [getDatabase]
      simp only [hnone, takeResp_nil hresp]
      rw [if_pos (by decide)]
    · simp [mutCount_append, mutCount, isSchemaPatch]
  | inr hsome =>
    refine ⟨w, ?_, rfl, hsome, hresp, rfl, rfl, rfl, rfl, ⟨[], by simp⟩, rfl⟩
    rw [getDatabase]
    simp only [hsome]

/-- C3: `ensureSelectOption` is a no-op when the option name normalizes to
absent, when the property is missing from the schema, when the property's
kind is not `select`/`multi_select`, or when a case-insensitively equal
option already exists; otherwise it issues exactly one schema mutation whose
requested option list is the pre-mutation list with the new option appended
at the end, and afterwards the cache is invalidated and eagerly refreshed
(it holds the updated remote schema). -/
theorem claim_C3_ensure_option :
    (∀ (p : String) (raw : JSVal) (w : W), normalizeOptionName raw = none →
      ensureSelectOption p raw w = (.ok (), w)) ∧
    (∀ (p : String) (raw : JSVal) (name : String) (w : W),
      w.responses = [] → CacheOK w → normalizeOptionName raw = some name →
      getPropDef w.remoteSchema p = none →
      ∃ w', ensureSelectOption p raw w = (.ok (), w') ∧
        w'.remoteSchema = w.remoteSchema ∧ w'.pages = w.pages ∧ w'.summary = w.summary ∧
        mutCount w'.trace = mutCount w.trace) ∧
    (∀ (p : String) (raw : JSVal) (name : String) (pd : PropDef) (w : W),
      w.responses = [] → CacheOK w → normalizeOptionName raw = some name →
      getPropDef w.remoteSchema p = some pd →
      pd.type ≠ "select" → pd.type ≠ "multi_select" →
      ∃ w', ensureSelectOption p raw w = (.ok (), w') ∧
        w'.remoteSchema = w.remoteSchema ∧ w'.pages = w.pages ∧ w'.summary = w.summary ∧
        mutCount w'.trace = mutCount w.trace) ∧
    (∀ (p : String) (raw : JSVal) (name : String) (pd : PropDef) (w : W),
      w.responses = [] → CacheOK w → normalizeOptionName raw = some name →
      getPropDef w.remoteSchema p = some pd →
      (pd.type = "select" ∨ pd.type = "multi_select") →
      (pd.options.any fun o => jsToLower o == jsToLower name) = true →
      ∃ w', ensureSelectOption p raw w = (.ok (), w') ∧
        w'.remoteSchema = w.remoteSchema ∧ w'.pages = w.pages ∧ w'.summary = w.summary ∧
        mutCount w'.trace = mutCount w.trace) ∧
    (∀ (p : String) (raw : JSVal) (name : String) (pd : PropDef) (w : W),
      w.responses = [] → CacheOK w → normalizeOptionName raw = some name →
      getPropDef w.remoteSchema p = some pd →
      (pd.type = "select" ∨ pd.type = "multi_select") →
      (pd.options.any fun o => jsToLower o == jsToLower name) = false →
      ∃ w', ensureSelectOption p raw w = (.ok (), w') ∧
        mutCount w'.trace = mutCount w.trace + 1 ∧
        Event.patchSchema p name (pd.options ++ [name]) ∈ w'.trace ∧
        getPropDef w'.remoteSchema p = some { pd with options := pd.options ++ [name] } ∧
        w'.dbSchemaCache = some w'.remoteSchema ∧
        w'.pages = w.pages ∧ w'.summary = w.summary) := by
  refine ⟨?_, ?_, ?_, ?_, ?_⟩
  · intro p raw w hn
    simp [ensureSelectOption, hn]
  · intro p raw name w hresp hc hn hpd
    obtain ⟨w₁, hg, hrem, hcache, hresp₁, hpages, hnext, hsum, hnow, htrext, hmut⟩ :=
      getDatabase_exec hresp hc
    refine ⟨w₁, ?_, hrem, hpages, hsum, hmut⟩
    rw [ensureSelectOption]
    simp only [hn, hg, bindE_ok, hpd]
  · intro p raw name pd w hresp hc hn hpd ht1 ht2
    obtain ⟨w₁, hg, hrem, hcache, hresp₁, hpages, hnext, hsum, hnow, htrext, hmut⟩ :=
      getDatabase_exec hresp hc
    refine ⟨w₁, ?_, hrem, hpages, hsum, hmut⟩
    rw [ensureSelectOption]
    simp only [hn, hg, bindE_ok, hpd]
    rw [if_neg (by simp [ht1, ht2])]
  · intro p raw name pd w hresp hc hn hpd ht hex
    obtain ⟨w₁, hg, hrem, hcache, hresp₁, hpages, hnext, hsum, hnow, htrext, hmut⟩ :=
      getDatabase_exec hresp hc
    refine ⟨w₁, ?_, hrem, hpages, hsum, hmut⟩
    rw [ensureSelectOption]
    simp only [hn, hg, bindE_ok, hpd]
    rw [if_pos (by rcases ht with h | h <;> simp [h]), if_pos hex]
  · intro p raw name pd w hresp hc hn hpd ht hex
    obtain ⟨w₁, hg, hrem, hcache, hresp₁, hpages, hnext, hsum, hnow, htrext, hmut⟩ :=
      getDatabase_exec hresp hc
    rw [ensureSelectOption]
    simp only [hn, hg, bindE_ok, hpd]
    rw [if_pos (by rcases ht with h | h <;> simp [h]), if_neg (by simp [hex])]
    rw [takeResp_nil hresp₁]
    dsimp only
    rw [if_pos (by decide)]
    set w₄ : W := { w₁ with
      remoteSchema := setPropOptions w₁.remoteSchema p (pd.options ++ [name]),
      dbSchemaCache := none,
      trace := w₁.trace ++ [Event.patchSchema p name (pd.options ++ [name])] } with hw₄
    have hresp₄ : w₄.responses = [] := hresp₁
    have hc₄ : CacheOK w₄ := Or.inl rfl
    obtain ⟨w₅, hg₅, hrem₅, hcache₅, hresp₅, hpages₅, hnext₅, hsum₅, hnow₅, htrext₅, hmut₅⟩ :=
      getDatabase_exec hresp₄ hc₄
    rw [hg₅, bindE_ok]
    refine ⟨w₅, rfl, ?_, ?_, ?_, ?_, ?_, ?_⟩
    · rw [hmut₅]
      show mutCount (w₁.trace ++ [Event.patchSchema p name (pd.options ++ [name])])
        = mutCount w.trace + 1
      rw [mutCount_append, hmut]
      simp [mutCount, isSchemaPatch]
    · obtain ⟨t, htr⟩ := htrext₅
      rw [htr]
      simp [hw₄, List.mem_append]
    · rw [hrem₅]
      show getPropDef (setPropOptions w₁.remoteSchema p (pd.options ++ [name])) p = _
      rw [getPropDef_setPropOptions_self, hrem, hpd]
      rfl
    · rw [hcache₅, hrem₅]
    · rw [hpages₅]
      exact hpages
    · rw [hsum₅]
      exact hsum

theorem claim_C3_witness :
    ∃ w', ensureSelectOption "Type" (.str "Bug") baseW = (.ok (), w') ∧
      mutCount w'.trace = mutCount baseW.trace + 1 ∧
      Event.patchSchema "Type" "Bug" (["Chore"] ++ ["Bug"]) ∈ w'.trace ∧
      getPropDef w'.remoteSchema "Type" = some { type := "select", options := ["Chore"] ++ ["Bug"] } ∧
      w'.dbSchemaCache = some w'.remoteSchema ∧
      w'.pages = baseW.pages ∧ w'.summary = baseW.summary :=
  claim_C3_ensure_option.2.2.2.2 "Type" (.str "Bug") "Bug" ⟨"select", ["Chore"]⟩ baseW
    rfl (Or.inl rfl) (by decide) (by decide) (Or.inl rfl) (by decide)

theorem notionWrite_nil (method endpoint : String) (eff : W → W) {w : W}
    (h : w.responses = []) :
    notionWrite method endpoint eff w
      = (.ok (), eff { w with trace := w.trace ++ [.write method endpoint] }) := by
  rw [notionWrite]
  split
  · rfl
  · next r rest hcons => rw [h] at hcons; cases hcons

theorem notionWrite_replicate (method endpoint : String) (eff : W → W) (b : String) :
    ∀ (n : Nat) (w : W), w.responses = List.replicate n ⟨429, b⟩ →
      ∃ w', notionWrite method endpoint eff w = (.ok (), eff w') ∧
        w'.responses = [] ∧
        w'.trace = w.trace
          ++ (List.replicate n [Event.write method endpoint, Event.backoff 500]).flatten
          ++ [Event.write method endpoint] ∧
        w'.remoteSchema = w.remoteSchema ∧ w'.dbSchemaCache = w.dbSchemaCache ∧
        w'.pages = w.pages ∧ w'.nextPageId = w.nextPageId ∧ w'.summary = w.summary ∧
        w'.nowStr = w.nowStr := by
  intro n
  induction n with
  | zero =>
    intro w hw
    have h0 : w.responses = [] := by simpa using hw
    refine ⟨{ w with trace := w.trace ++ [.write method endpoint] },
      notionWrite_nil method endpoint eff h0, h0, by simp, rfl, rfl, rfl, rfl, rfl, rfl⟩
  | succ n ih =>
    intro w hw
    rw [notionWrite]
    split
    · next hnil => rw [hw] at hnil; simp [List.replicate_succ] at hnil
    · next r rest hcons =>
      rw [hw, List.replicate_succ] at hcons
      injection hcons with hr hrest
      subst hr
      subst hrest
      dsimp only
      rw [if_pos rfl]
      obtain ⟨w', hw', hresp', htr', hrem', hcache', hpages', hnid', hsum', hnow'⟩ :=
        ih { w with responses := List.replicate n ⟨429, b⟩, trace := w.trace ++ [Event.write method endpoint] ++ [Event.backoff 500] } rfl
      refine ⟨w', ?_, hresp', ?_, hrem', hcache', hpages', hnid', hsum', hnow'⟩
      · exact hw'
      · rw [htr']
        simp [List.replicate_succ, List.append_assoc]

theorem finishUpsert_exec (pid : Nat) (a : Action) {w : W} (h : w.responses = []) :
    ∃ w', finishUpsert pid a w = (.ok a, w') ∧
      w'.pages = w.pages.map (fun pg => if pg.pid = pid
        then { pg with props := mergeProps pg.props (lastSyncProps w.nowStr) } else pg) ∧
      w'.responses = [] ∧ w'.remoteSchema = w.remoteSchema ∧
      w'.dbSchemaCache = w.dbSchemaCache ∧ w'.nextPageId = w.nextPageId ∧
      w'.summary = w.summary ∧ w'.nowStr = w.nowStr ∧
      mutCount w'.trace = mutCount w.trace := by
  have h1 := notionWrite_nil "PATCH"
    ("https://api.notion.com/v1/blocks/" ++ toString pid ++ "/children") id h
  rw [finishUpsert, appendSyncComment, h1, bindE_ok]
  simp only [id_eq]
  have h2 := notionWrite_nil "PATCH" (pageEndpoint pid)
    (patchPageEff pid (lastSyncProps w.nowStr))
    (w := { w with trace := w.trace ++ [Event.write "PATCH"
      ("https://api.notion.com/v1/blocks/" ++ toString pid ++ "/children")] }) h
  rw [h2, bindE_ok]
  refine ⟨_, rfl, rfl, h, rfl, rfl, rfl, rfl, rfl, ?_⟩
  simp [patchPageEff, mutCount_append, mutCount, isSchemaPatch]

theorem rl_scenario (n : Nat) :
    ∃ wF, upsert plainIssue (incProcessed (rlW n)) = (.ok .created, wF) ∧
      wF.summary = (incProcessed (rlW n)).summary ∧ wF.pages.length = 1 := by
  have hstep : upsert plainIssue (incProcessed (rlW n))
      = bindE (notionWrite "POST" "https://api.notion.com/v1/pages"
          (createPageEff (buildProps "Name" plainIssue (mappedOf plainIssue) baseW.nowStr))
          (rlW2 n))
        (fun _ w₁₀ => finishUpsert 1 .created w₁₀) := rfl
  obtain ⟨w', hw', hresp', htr', hrem', hcache', hpages', hnid', hsum', hnow'⟩ :=
    notionWrite_replicate "POST" "https://api.notion.com/v1/pages"
      (createPageEff (buildProps "Name" plainIssue (mappedOf plainIssue) baseW.nowStr)) ""
      n (rlW2 n) rfl
  rw [hstep, hw', bindE_ok]
  have hrespC : (createPageEff
      (buildProps "Name" plainIssue (mappedOf plainIssue) baseW.nowStr) w').responses = [] :=
    hresp'
  obtain ⟨wF, hF, hFpages, hFresp, _, _, _, hFsum, _, _⟩ :=
    finishUpsert_exec 1 .created hrespC
  refine ⟨wF, hF, ?_, ?_⟩
  · rw [hFsum]
    show w'.summary = _
    rw [hsum']
    rfl
  · rw [hFpages]
    show ((w'.pages ++ [Page.mk w'.nextPageId (buildProps "Name" plainIssue (mappedOf plainIssue) baseW.nowStr)]).map _).length = 1
    rw [hpages']
    simp [rlW2]

/-- C4: a destination write receiving a rate-limit (429) status retries after
a fixed 500 ms backoff, recursively, with no retry-count ceiling (the first
conjunct holds for every number `n` of consecutive 429s), and the eventual
success applies the destination effect exactly once; in the end-to-end
scenario a create write preceded by any number of 429s yields exactly one
created record, counted once. -/
theorem claim_C4_rate_limit_retry :
    (∀ (n : Nat) (b method endpoint : String) (eff : W → W) (w : W),
      w.responses = List.replicate n ⟨429, b⟩ →
      ∃ w', notionWrite method endpoint eff w = (.ok (), eff w') ∧
        w'.responses = [] ∧
        w'.trace = w.trace
          ++ (List.replicate n [Event.write method endpoint, Event.backoff 500]).flatten
          ++ [Event.write method endpoint] ∧
        w'.remoteSchema = w.remoteSchema ∧ w'.dbSchemaCache = w.dbSchemaCache ∧
        w'.pages = w.pages ∧ w'.nextPageId = w.nextPageId ∧ w'.summary = w.summary ∧
        w'.nowStr = w.nowStr) ∧
    (∀ n : Nat, (processIssue plainIssue (rlW n)).summary.created = 1 ∧
      (processIssue plainIssue (rlW n)).summary.updated = 0 ∧
      (processIssue plainIssue (rlW n)).pages.length = 1) := by
  constructor
  · intro n b method endpoint eff w hw
    exact notionWrite_replicate method endpoint eff b n w hw
  · intro n
    obtain ⟨wF, hu, hsum, hpages⟩ := rl_scenario n
    rw [processIssue]
    dsimp only
    rw [hu]
    refine ⟨?_, ?_, ?_⟩
    · show wF.summary.created + 1 = 1
      rw [hsum]
      rfl
    · show wF.summary.updated = 0
      rw [hsum]
      rfl
    · exact hpages

theorem mem_ite_nil {α : Type} {c : Prop} [inst : Decidable c] {l : List α} {x : α} :
    x ∈ (if c then l else []) ↔ c ∧ x ∈ l := by
  split
  · next hc => simp [hc]
  · next hc => simp [hc]

theorem find?_map_set_of_any {ps : List (String × PropValue)} {k : String} {v : PropValue}
    (h : (ps.any fun p => p.1 == k) = true) :
    (ps.map (fun p => if p.1 == k then (k, v) else p)).find? (fun p => p.1 == k)
      = some (k, v) := by
  induction ps with
  | nil => cases h
  | cons q qs ih =>
    rw [List.map_cons]
    by_cases hq : (q.1 == k) = true
    · rw [if_pos hq, List.find?_cons]
      simp
    · have hb : (q.1 == k) = false := by simpa using hq
      rw [if_neg hq, List.find?_cons, hb]
      have h' : (qs.any fun p => p.1 == k) = true := by
        rw [List.any_cons, hb, Bool.false_or] at h
        exact h
      exact ih h'

theorem getVal_setProp_self (ps : List (String × PropValue)) (k : String) (v : PropValue) :
    getVal (setProp ps k v) k = some v := by
  rw [setProp]
  by_cases h : (ps.any fun p => p.1 == k) = true
  · rw [if_pos h, getVal, find?_map_set_of_any h]
    rfl
  · rw [if_neg h, getVal]
    have hnone : ps.find? (fun p => p.1 == k) = none := by
      rw [List.find?_eq_none]
      intro p hp hpk
      exact h (by rw [List.any_eq_true]; exact ⟨p, hp, hpk⟩)
    rw [List.find?_append, hnone]
    simp [List.find?_cons]

theorem getVal_setProp_ne (ps : List (String × PropValue)) {k x : String} (v : PropValue)
    (hne : x ≠ k) : getVal (setProp ps k v) x = getVal ps x := by
  rw [setProp]
  by_cases h : (ps.any fun p => p.1 == k) = true
  · rw [if_pos h]
    clear h
    induction ps with
    | nil => rfl
    | cons q qs ih =>
      rw [List.map_cons]
      by_cases hq : (q.1 == k) = true
      · have hqk : q.1 = k := by simpa using hq
        have hkx : (k == x) = false := beq_eq_false_iff_ne.mpr (Ne.symm hne)
        have hqx : (q.1 == x) = false := by rw [hqk]; exact hkx
        rw [if_pos hq, getVal, getVal, List.find?_cons, List.find?_cons, hkx, hqx]
        exact ih
      · rw [if_neg hq]
        by_cases hxq : (q.1 == x) = true
        · rw [getVal, getVal, List.find?_cons, List.find?_cons, hxq]
        · have hxb : (q.1 == x) = false := by simpa using hxq
          rw [getVal, getVal, List.find?_cons, List.find?_cons, hxb]
          exact ih
  · rw [if_neg h, getVal, getVal, List.find?_append]
    have hkx : (k == x) = false := beq_eq_false_iff_ne.mpr (Ne.symm hne)
    have hsingle : ([(k, v)].find? (fun p => p.1 == x)) = none := by
      simp [List.find?_cons, hkx]
    rw [hsingle]
    simp

theorem getVal_mergeProps_not_mem {entries : List (String × PropValue)} {x : String}
    (h : ∀ e ∈ entries, e.1 ≠ x) :
    ∀ acc, getVal (mergeProps acc entries) x = getVal acc x := by
  induction entries with
  | nil => intro acc; rfl
  | cons e es ih =>
    intro acc
    have h1 := ih (fun e' he' => h e' (List.mem_cons_of_mem _ he')) (setProp acc e.1 e.2)
    have h2 : getVal (setProp acc e.1 e.2) x = getVal acc x :=
      getVal_setProp_ne acc e.2 (Ne.symm (h e (List.mem_cons_self _ _)))
    exact h1.trans h2

theorem getVal_mergeProps_last {x : String} {v : PropValue} (pre post : List (String × PropValue))
    (h : ∀ e ∈ post, e.1 ≠ x) (acc : List (String × PropValue)) :
    getVal (mergeProps acc (pre ++ (x, v) :: post)) x = some v := by
  rw [mergeProps, List.foldl_append, List.foldl_cons]
  exact (getVal_mergeProps_not_mem h _).trans (getVal_setProp_self _ _ _)

theorem keysOf_setProp_mem (ps : List (String × PropValue)) (k : String) (v : PropValue)
    (x : String) : x ∈ keysOf (setProp ps k v) ↔ x ∈ keysOf ps ∨ x = k := by
  rw [setProp]
  by_cases h : (ps.any fun p => p.1 == k) = true
  · rw [if_pos h]
    have hkeys : keysOf (ps.map (fun p => if p.1 == k then (k, v) else p)) = keysOf ps := by
      rw [keysOf, keysOf, List.map_map]
      apply List.map_congr_left
      intro p _
      by_cases hp : (p.1 == k) = true
      · have : p.1 = k := by simpa using hp
        simp [hp, Function.comp, this]
      · simp [hp, Function.comp]
    rw [hkeys]
    have hk : k ∈ keysOf ps := by
      rw [List.any_eq_true] at h
      obtain ⟨p, hp, hpk⟩ := h
      have hpk' : p.1 = k := by simpa using hpk
      exact hpk' ▸ List.mem_map_of_mem _ hp
    constructor
    · exact Or.inl
    · rintro (hx | rfl)
      · exact hx
      · exact hk
  · rw [if_neg h]
    simp [keysOf]

theorem mem_keys_mergeProps (entries : List (String × PropValue)) (x : String) :
    ∀ acc, x ∈ keysOf (mergeProps acc entries)
      ↔ x ∈ keysOf acc ∨ x ∈ entries.map (fun e => e.1) := by
  induction entries with
  | nil => intro acc; simp [mergeProps, keysOf]
  | cons e es ih =>
    intro acc
    have h1 := ih (setProp acc e.1 e.2)
    rw [keysOf_setProp_mem] at h1
    refine Iff.trans h1 ?_
    rw [List.map_cons, List.mem_cons]
    tauto

theorem mem_keys_buildProps (tn : String) (i : Issue) (m : Mapped) (now : String) (x : String) :
    x ∈ keysOf (buildProps tn i m now) ↔ x ∈ (propEntries tn i m now).map (fun e => e.1) := by
  rw [buildProps, mem_keys_mergeProps]
  simp [keysOf]

/-- C6 counterexample: the `Description` key is written even when the
description is absent (as an empty rich-text array), so "every absent field's
key is omitted" fails for the description field. -/
theorem claim_C6_counterexample :
    ¬ (∀ (tn : String) (i : Issue) (now : String), i.description = none →
        "Description" ∉ keysOf (buildProps tn i (mappedOf i) now)) := by
  intro h
  exact h "Name" plainIssue "t" rfl (by decide)

/-- C6 (amended): in the property set built for the write, each of the seven
conditional fields (status, priority, due date, module, sub-area, type,
cycle) has its key present exactly when its mapped value is non-absent,
while the `Description` key is always present and holds the chunked
description — an empty rich-text array when the description is absent (the
title, `Linear Issue ID`, `Linear URL` and `Last Sync` keys are likewise
always present).  The hypothesis excludes the degenerate schema where the
title property itself is named like one of the mapped fields. -/
theorem claim_C6_absent_keys (tn : String) (i : Issue) (now : String)
    (htn : tn ∉ (["Status", "Priority", "Due Date", "Module", "Sub-Area", "Type",
      "Cycle", "Description"] : List String)) :
    ("Status" ∈ keysOf (buildProps tn i (mappedOf i) now)
      ↔ jsTruthyOpt (mappedOf i).statusName = true) ∧
    ("Priority" ∈ keysOf (buildProps tn i (mappedOf i) now)
      ↔ jsTruthyOpt (mappedOf i).priorityVal = true) ∧
    ("Due Date" ∈ keysOf (buildProps tn i (mappedOf i) now)
      ↔ jsTruthyOpt i.dueDate = true) ∧
    ("Module" ∈ keysOf (buildProps tn i (mappedOf i) now)
      ↔ jsTruthyOpt (mappedOf i).moduleNorm = true) ∧
    ("Sub-Area" ∈ keysOf (buildProps tn i (mappedOf i) now)
      ↔ jsTruthyOpt (mappedOf i).subareaNorm = true) ∧
    ("Type" ∈ keysOf (buildProps tn i (mappedOf i) now)
      ↔ jsTruthyOpt (mappedOf i).typeNorm = true) ∧
    ("Cycle" ∈ keysOf (buildProps tn i (mappedOf i) now)
      ↔ jsTruthyOpt (mappedOf i).cycleNorm = true) ∧
    "Description" ∈ keysOf (buildProps tn i (mappedOf i) now) ∧
    getVal (buildProps tn i (mappedOf i) now) "Description"
      = some (.richText (toRichTextArray ((i.description).getD ""))) ∧
    (i.description = none →
      getVal (buildProps tn i (mappedOf i) now) "Description" = some (.richText [])) := by
  have hne : tn ≠ "Status" ∧ tn ≠ "Priority" ∧ tn ≠ "Due Date" ∧ tn ≠ "Module" ∧
      tn ≠ "Sub-Area" ∧ tn ≠ "Type" ∧ tn ≠ "Cycle" ∧ tn ≠ "Description" := by
    simp only [List.mem_cons, List.mem_singleton, not_or] at htn
    simpa using htn
  obtain ⟨h1, h2, h3, h4, h5, h6, h7, h8⟩ := hne
  have hdesc : getVal (buildProps tn i (mappedOf i) now) "Description"
      = some (.richText (toRichTextArray ((i.description).getD ""))) := by
    rw [buildProps]
    rw [show propEntries tn i (mappedOf i) now
      = ([(tn, PropValue.titleV ((i.title).getD "")),
          ("Linear Issue ID", PropValue.richText [i.identifier]),
          ("Linear URL", PropValue.urlV i.url)]
        ++ (if jsTruthyOpt (mappedOf i).statusName then [("Status", PropValue.selectV (optStr (mappedOf i).statusName))] else [])
        ++ (if jsTruthyOpt (mappedOf i).priorityVal then [("Priority", PropValue.selectV (optStr (mappedOf i).priorityVal))] else [])
        ++ (if jsTruthyOpt i.dueDate then [("Due Date", PropValue.dateV (optStr i.dueDate) none)] else [])
        ++ (if jsTruthyOpt (mappedOf i).moduleNorm then [("Module", PropValue.selectV (optStr (mappedOf i).moduleNorm))] else [])
        ++ (if jsTruthyOpt (mappedOf i).subareaNorm then [("Sub-Area", PropValue.selectV (optStr (mappedOf i).subareaNorm))] else [])
        ++ (if jsTruthyOpt (mappedOf i).typeNorm then [("Type", PropValue.selectV (optStr (mappedOf i).typeNorm))] else [])
        ++ (if jsTruthyOpt (mappedOf i).cycleNorm then [("Cycle", PropValue.selectV (optStr (mappedOf i).cycleNorm))] else [])
        ++ [("Last Sync", PropValue.dateV now (some "Europe/Berlin"))])
        ++ ("Description", PropValue.richText (toRichTextArray ((i.description).getD ""))) :: []
      from by simp [propEntries]]
    exact getVal_mergeProps_last _ [] (by simp) []
  refine ⟨?_, ?_, ?_, ?_, ?_, ?_, ?_, ?_, hdesc, ?_⟩
  · rw [mem_keys_buildProps]
    simp +decide [propEntries, mem_ite_nil, Ne.symm h1]
  · rw [mem_keys_buildProps]
    simp +decide [propEntries, mem_ite_nil, Ne.symm h2]
  · rw [mem_keys_buildProps]
    simp +decide [propEntries, mem_ite_nil, Ne.symm h3]
  · rw [mem_keys_buildProps]
    simp +decide [propEntries, mem_ite_nil, Ne.symm h4]
  · rw [mem_keys_buildProps]
    simp +decide [propEntries, mem_ite_nil, Ne.symm h5]
  · rw [mem_keys_buildProps]
    simp +decide [propEntries, mem_ite_nil, Ne.symm h6]
  · rw [mem_keys_buildProps]
    simp +decide [propEntries, mem_ite_nil, Ne.symm h7]
  · rw [mem_keys_buildProps]
    simp +decide [propEntries, mem_ite_nil]
  · intro hd
    rw [hdesc, hd]
    rfl

theorem claim_C6_witness :
    ("Status" ∈ keysOf (buildProps "Name" plainIssue (mappedOf plainIssue) "t")
      ↔ jsTruthyOpt (mappedOf plainIssue).statusName = true) ∧
    "Description" ∈ keysOf (buildProps "Name" plainIssue (mappedOf plainIssue) "t") :=
  ⟨(claim_C6_absent_keys "Name" plainIssue "t" (by decide)).1,
   (claim_C6_absent_keys "Name" plainIssue "t" (by decide)).2.2.2.2.2.2.2.1⟩

theorem join_singleton (s : String) : String.join [s] = s := by
  apply String.ext
  rw [string_join_data]
  simp

theorem schemaTypes_setPropOptions (db : Schema) (p : String) (opts : List String) :
    schemaTypes (setPropOptions db p opts) = schemaTypes db := by
  rw [schemaTypes, schemaTypes, setPropOptions, List.map_map]
  apply List.map_congr_left
  intro q _
  by_cases hq : (q.1 == p) = true
  · simp [Function.comp, hq]
  · simp [Function.comp, hq]

theorem titled_iff (db : Schema) : titled db ↔ ∃ q ∈ schemaTypes db, q.2 = "title" := by
  constructor
  · rintro ⟨p, hp, hpt⟩
    exact ⟨(p.1, p.2.type), List.mem_map_of_mem _ hp, hpt⟩
  · rintro ⟨q, hq, hqt⟩
    rw [schemaTypes, List.mem_map] at hq
    obtain ⟨p, hp, rfl⟩ := hq
    exact ⟨p, hp, hqt⟩

theorem titled_of_schemaTypes_eq {db db' : Schema} (h : schemaTypes db' = schemaTypes db)
    (ht : titled db) : titled db' := by
  rw [titled_iff, h]
  exact (titled_iff db).mp ht

theorem keysOf_map_set (ps : List (String × PropValue)) (k : String) (v : PropValue) :
    keysOf (ps.map (fun p => if p.1 == k then (k, v) else p)) = keysOf ps := by
  rw [keysOf, keysOf, List.map_map]
  apply List.map_congr_left
  intro p _
  by_cases hp : (p.1 == k) = true
  · have : p.1 = k := by simpa using hp
    simp [hp, Function.comp, this]
  · simp [hp, Function.comp]

theorem keysOf_setProp_nodup (ps : List (String × PropValue)) (k : String) (v : PropValue)
    (h : (keysOf ps).Nodup) : (keysOf (setProp ps k v)).Nodup := by
  rw [setProp]
  by_cases ha : (ps.any fun p => p.1 == k) = true
  · rw [if_pos ha, keysOf_map_set]
    exact h
  · rw [if_neg ha]
    have hk : k ∉ keysOf ps := by
      intro hmem
      rw [keysOf, List.mem_map] at hmem
      obtain ⟨p, hp, hpk⟩ := hmem
      exact ha (by rw [List.any_eq_true]; exact ⟨p, hp, by simp [hpk]⟩)
    have : keysOf (ps ++ [(k, v)]) = keysOf ps ++ [k] := by simp [keysOf]
    rw [this]
    simp [List.nodup_append, h, hk]

theorem keysOf_mergeProps_nodup (entries : List (String × PropValue)) :
    ∀ acc, (keysOf acc).Nodup → (keysOf (mergeProps acc entries)).Nodup := by
  induction entries with
  | nil => intro acc h; exact h
  | cons e es ih =>
    intro acc h
    exact ih (setProp acc e.1 e.2) (keysOf_setProp_nodup acc e.1 e.2 h)

theorem keysOf_buildProps_nodup (tn : String) (i : Issue) (m : Mapped) (now : String) :
    (keysOf (buildProps tn i m now)).Nodup :=
  keysOf_mergeProps_nodup _ [] (by simp [keysOf])

theorem getVal_merge_of_nodup {props : List (String × PropValue)} {x : String} {v : PropValue}
    (hnd : (keysOf props).Nodup) (h : getVal props x = some v)
    (old : List (String × PropValue)) : getVal (mergeProps old props) x = some v := by
  rw [getVal] at h
  cases hf : props.find? (fun p => p.1 == x) with
  | none => rw [hf] at h; cases h
  | some q =>
    rw [hf] at h
    have hv : q.2 = v := by simpa using h
    have hq := List.find?_eq_some.mp hf
    obtain ⟨hpred, as, bs, hdecomp, hall⟩ := hq
    have hqx : q.1 = x := by simpa using hpred
    have hbs : ∀ e ∈ bs, e.1 ≠ x := by
      intro e he hex
      have hnd' := hnd
      rw [hdecomp] at hnd'
      rw [keysOf] at hnd'
      rw [List.map_append, List.map_cons] at hnd'
      have := List.Nodup.of_append_right hnd'
      rw [List.nodup_cons] at this
      refine this.1 ?_
      rw [hqx, ← hex]
      exact List.mem_map_of_mem _ he
    have hqpair : q = (x, v) := by
      cases q
      simp at hqx hv
      simp [hqx, hv]
    rw [hdecomp, hqpair]
    exact getVal_mergeProps_last as bs hbs old

theorem getVal_buildProps_id (tn : String) (i : Issue) (m : Mapped) (now : String) :
    getVal (buildProps tn i m now) "Linear Issue ID"
      = some (.richText [i.identifier]) := by
  rw [buildProps]
  rw [show propEntries tn i m now
    = [(tn, PropValue.titleV ((i.title).getD ""))]
      ++ ("Linear Issue ID", PropValue.richText [i.identifier])
      :: (([("Linear URL", PropValue.urlV i.url)]
        ++ (if jsTruthyOpt m.statusName then [("Status", PropValue.selectV (optStr m.statusName))] else [])
        ++ (if jsTruthyOpt m.priorityVal then [("Priority", PropValue.selectV (optStr m.priorityVal))] else [])
        ++ (if jsTruthyOpt i.dueDate then [("Due Date", PropValue.dateV (optStr i.dueDate) none)] else [])
        ++ (if jsTruthyOpt m.moduleNorm then [("Module", PropValue.selectV (optStr m.moduleNorm))] else [])
        ++ (if jsTruthyOpt m.subareaNorm then [("Sub-Area", PropValue.selectV (optStr m.subareaNorm))] else [])
        ++ (if jsTruthyOpt m.typeNorm then [("Type", PropValue.selectV (optStr m.typeNorm))] else [])
        ++ (if jsTruthyOpt m.cycleNorm then [("Cycle", PropValue.selectV (optStr m.cycleNorm))] else [])
        ++ [("Last Sync", PropValue.dateV now (some "Europe/Berlin")),
            ("Description", PropValue.richText (toRichTextArray ((i.description).getD "")))]))
    from by simp [propEntries]]
  apply getVal_mergeProps_last
  intro e he
  simp only [List.mem_append, List.mem_cons, List.mem_singleton, mem_ite_nil,
    List.not_mem_nil, or_false, or_assoc] at he
  rcases he with rfl | ⟨-, rfl⟩ | ⟨-, rfl⟩ | ⟨-, rfl⟩ | ⟨-, rfl⟩ | ⟨-, rfl⟩ | ⟨-, rfl⟩ | ⟨-, rfl⟩ | rfl | rfl <;> (dsimp only; decide)

theorem ensureSelectOption_exec (p : String) (raw : JSVal) {w : W}
    (hresp : w.responses = []) (hc : CacheOK w) :
    ∃ w', ensureSelectOption p raw w = (.ok (), w') ∧ w'.responses = [] ∧ CacheOK w' ∧
      schemaTypes w'.remoteSchema = schemaTypes w.remoteSchema ∧
      w'.pages = w.pages ∧ w'.nextPageId = w.nextPageId ∧ w'.summary = w.summary ∧
      w'.nowStr = w.nowStr := by
  rw [ensureSelectOption]
  cases hn : normalizeOptionName raw with
  | none => exact ⟨w, rfl, hresp, hc, rfl, rfl, rfl, rfl, rfl⟩
  | some name =>
    obtain ⟨w₁, hg, hrem, hcache, hresp₁, hpages, hnext, hsum, hnow, htrext, hmut⟩ :=
      getDatabase_exec hresp hc
    simp only [hg, bindE_ok]
    have hc₁ : CacheOK w₁ := Or.inr (by rw [hcache, hrem])
    cases hpd : getPropDef w.remoteSchema p with
    | none => exact ⟨w₁, rfl, hresp₁, hc₁, by rw [hrem], hpages, hnext, hsum, hnow⟩
    | some prop =>
      dsimp only
      by_cases ht : (prop.type == "select" || prop.type == "multi_select") = true
      · rw [if_pos ht]
        by_cases hex : (prop.options.any fun o => jsToLower o == jsToLower name) = true
        · rw [if_pos hex]
          exact ⟨w₁, rfl, hresp₁, hc₁, by rw [hrem], hpages, hnext, hsum, hnow⟩
        · rw [if_neg hex, takeResp_nil hresp₁]
          dsimp only
          rw [if_pos (by decide)]
          set w₄ : W := { w₁ with
            remoteSchema := setPropOptions w₁.remoteSchema p (prop.options ++ [name]),
            dbSchemaCache := none,
            trace := w₁.trace ++ [Event.patchSchema p name (prop.options ++ [name])] } with hw₄
          have hresp₄ : w₄.responses = [] := hresp₁
          obtain ⟨w₅, hg₅, hrem₅, hcache₅, hresp₅, hpages₅, hnext₅, hsum₅, hnow₅, htrext₅, hmut₅⟩ :=
            getDatabase_exec hresp₄ (Or.inl rfl)
          rw [hg₅, bindE_ok]
          refine ⟨w₅, rfl, hresp₅, Or.inr (by rw [hcache₅, hrem₅]), ?_, ?_, ?_, ?_, ?_⟩
          · rw [hrem₅]
            show schemaTypes (setPropOptions w₁.remoteSchema p (prop.options ++ [name]))
              = schemaTypes w.remoteSchema
            rw [schemaTypes_setPropOptions, hrem]
          · exact hpages₅.trans hpages
          · exact hnext₅.trans hnext
          · exact hsum₅.trans hsum
          · exact hnow₅.trans hnow
      · rw [if_neg ht]
        exact ⟨w₁, rfl, hresp₁, hc₁, by rw [hrem], hpages, hnext, hsum, hnow⟩

theorem ensureIf_exec (p : String) (v : Option String) {w : W}
    (hresp : w.responses = []) (hc : CacheOK w) :
    ∃ w', ensureIf p v w = (.ok (), w') ∧ w'.responses = [] ∧ CacheOK w' ∧
      schemaTypes w'.remoteSchema = schemaTypes w.remoteSchema ∧
      w'.pages = w.pages ∧ w'.nextPageId = w.nextPageId ∧ w'.summary = w.summary ∧
      w'.nowStr = w.nowStr := by
  rw [ensureIf]
  by_cases hv : jsTruthyOpt v = true
  · rw [if_pos hv]
    exact ensureSelectOption_exec p _ hresp hc
  · rw [if_neg hv]
    exact ⟨w, rfl, hresp, hc, rfl, rfl, rfl, rfl, rfl⟩

theorem getTitlePropertyName_exec {w : W} (hresp : w.responses = []) (hc : CacheOK w)
    (ht : titled w.remoteSchema) :
    ∃ tn w', getTitlePropertyName w = (.ok tn, w') ∧ w'.responses = [] ∧ CacheOK w' ∧
      w'.remoteSchema = w.remoteSchema ∧ w'.pages = w.pages ∧ w'.nextPageId = w.nextPageId ∧
      w'.summary = w.summary ∧ w'.nowStr = w.nowStr := by
  obtain ⟨w₁, hg, hrem, hcache, hresp₁, hpages, hnext, hsum, hnow, htrext, hmut⟩ :=
    getDatabase_exec hresp hc
  rw [getTitlePropertyName, hg, bindE_ok]
  have hfind : ∃ q, w.remoteSchema.find? (fun p => p.2.type == "title") = some q := by
    obtain ⟨p, hp, hpt⟩ := ht
    have : (w.remoteSchema.find? (fun p => p.2.type == "title")).isSome := by
      rw [List.find?_isSome]
      exact ⟨p, hp, by simp [hpt]⟩
    exact Option.isSome_iff_exists.mp this
  obtain ⟨q, hq⟩ := hfind
  rw [hq]
  exact ⟨q.1, w₁, rfl, hresp₁, Or.inr (by rw [hcache, hrem]), hrem, hpages, hnext, hsum, hnow⟩

theorem findPage_exec (identifier : String) {w : W} (hresp : w.responses = []) :
    findPageByIssueId identifier w
      = (.ok (w.pages.find? (fun pg => pageIdValue pg == some identifier)),
         { w with trace := w.trace ++ [.queryDb identifier] }) := by
  rw [findPageByIssueId, takeResp_nil hresp]
  dsimp only
  rw [if_pos (by decide)]

theorem claim_C4_witness :
    ∃ w', notionWrite "POST" "u" id rlEnvW = (.ok (), id w') ∧
      w'.responses = [] ∧
      w'.trace = rlEnvW.trace
        ++ (List.replicate 2 [Event.write "POST" "u", Event.backoff 500]).flatten
        ++ [Event.write "POST" "u"] ∧
      w'.remoteSchema = rlEnvW.remoteSchema ∧ w'.dbSchemaCache = rlEnvW.dbSchemaCache ∧
      w'.pages = rlEnvW.pages ∧ w'.nextPageId = rlEnvW.nextPageId ∧
      w'.summary = rlEnvW.summary ∧ w'.nowStr = rlEnvW.nowStr :=
  claim_C4_rate_limit_retry.1 2 "x" "POST" "u" id rlEnvW rfl

theorem pageIdValue_eq_of_getVal {pg : Page} {ident : String}
    (h : getVal pg.props "Linear Issue ID" = some (.richText [ident])) :
    pageIdValue pg = some ident := by
  rw [pageIdValue, h]
  dsimp only
  rw [join_singleton]

theorem getVal_merge_lastSync (old : List (String × PropValue)) (now : String) :
    getVal (mergeProps old (lastSyncProps now)) "Linear Issue ID"
      = getVal old "Linear Issue ID" := by
  apply getVal_mergeProps_not_mem
  intro e he
  simp [lastSyncProps] at he
  rw [he]
  show ("Last Sync" : String) ≠ "Linear Issue ID"
  decide

theorem prop_if_id_val (c : Prop) [inst : Decidable c] (tn : String) (i : Issue) (m : Mapped)
    (now : String) :
    getVal (if c then setProp (buildProps tn i m now) "Title" (.richText [(i.title).getD ""])
      else buildProps tn i m now) "Linear Issue ID" = some (.richText [i.identifier]) := by
  split
  · rw [getVal_setProp_ne _ _ (by decide)]
    exact getVal_buildProps_id tn i m now
  · exact getVal_buildProps_id tn i m now

theorem prop_if_nodup (c : Prop) [inst : Decidable c] (tn : String) (i : Issue) (m : Mapped)
    (now : String) :
    (keysOf (if c then setProp (buildProps tn i m now) "Title" (.richText [(i.title).getD ""])
      else buildProps tn i m now)).Nodup := by
  split
  · exact keysOf_setProp_nodup _ _ _ (keysOf_buildProps_nodup tn i m now)
  · exact keysOf_buildProps_nodup tn i m now

theorem hasMatch_iff_find (w : W) (ident : String) :
    hasMatch w ident ↔ (w.pages.find? (fun pg => pageIdValue pg == some ident)).isSome := by
  rw [hasMatch, List.find?_isSome]
  constructor
  · rintro ⟨pg, hpg, hv⟩
    exact ⟨pg, hpg, by simp [hv]⟩
  · rintro ⟨pg, hpg, hv⟩
    exact ⟨pg, hpg, by simpa using hv⟩

theorem patchF_pid (pid : Nat) (props : List (String × PropValue)) (q : Page) :
    (if q.pid = pid then { q with props := mergeProps q.props props } else q).pid = q.pid := by
  split <;> rfl

theorem pageIdValue_lastSyncF (pid : Nat) (now : String) (q : Page) :
    pageIdValue (if q.pid = pid then { q with props := mergeProps q.props (lastSyncProps now) }
      else q) = pageIdValue q := by
  split
  · rw [pageIdValue, pageIdValue]
    dsimp only
    rw [getVal_merge_lastSync]
  · rfl

theorem map_lastSync_match {l : List Page} {pid : Nat} {now : String}
    {q : Page} (hq : q ∈ l) {ident : String} (hv : pageIdValue q = some ident) :
    ∃ pg ∈ l.map (fun q' => if q'.pid = pid
      then { q' with props := mergeProps q'.props (lastSyncProps now) } else q'),
      pageIdValue pg = some ident := by
  refine ⟨_, List.mem_map_of_mem _ hq, ?_⟩
  show pageIdValue (if q.pid = pid
    then { q with props := mergeProps q.props (lastSyncProps now) } else q) = some ident
  rw [pageIdValue_lastSyncF]
  exact hv

theorem upsert_main {i : Issue} {w : W} (hlab : hasRequiredLabel i = true) (hInv : Inv w) :
    ∃ a w', upsert i w = (.ok a, w') ∧ Inv w' ∧ w'.summary = w.summary ∧
      (∀ x, hasMatch w x → hasMatch w' x) ∧ hasMatch w' i.identifier ∧
      (hasMatch w i.identifier → a = Action.updated ∧ w'.pages.length = w.pages.length) ∧
      (¬hasMatch w i.identifier → a = Action.created) := by
  obtain ⟨hresp, hc, ht, hwf⟩ := hInv
  rw [upsert, if_neg (by simp [hlab])]
  dsimp only
  obtain ⟨w₁, h1, hr1, hc1, hst1, hp1, hn1, hs1, hw1⟩ :=
    ensureIf_exec "Status" (mappedOf i).statusName hresp hc
  rw [h1, bindE_ok]
  obtain ⟨w₂, h2, hr2, hc2, hst2, hp2, hn2, hs2, hw2⟩ :=
    ensureIf_exec "Priority" (mappedOf i).priorityVal hr1 hc1
  rw [h2, bindE_ok]
  obtain ⟨w₃, h3, hr3, hc3, hst3, hp3, hn3, hs3, hw3⟩ :=
    ensureIf_exec "Module" (mappedOf i).moduleNorm hr2 hc2
  rw [h3, bindE_ok]
  obtain ⟨w₄, h4, hr4, hc4, hst4, hp4, hn4, hs4, hw4⟩ :=
    ensureIf_exec "Sub-Area" (mappedOf i).subareaNorm hr3 hc3
  rw [h4, bindE_ok]
  obtain ⟨w₅, h5, hr5, hc5, hst5, hp5, hn5, hs5, hw5⟩ :=
    ensureIf_exec "Type" (mappedOf i).typeNorm hr4 hc4
  rw [h5, bindE_ok]
  obtain ⟨w₆, h6, hr6, hc6, hst6, hp6, hn6, hs6, hw6⟩ :=
    ensureIf_exec "Cycle" (mappedOf i).cycleNorm hr5 hc5
  rw [h6, bindE_ok]
  have ht6 : titled w₆.remoteSchema :=
    titled_of_schemaTypes_eq (by rw [hst6, hst5, hst4, hst3, hst2, hst1]) ht
  obtain ⟨tn, w₇, h7, hr7, hc7, hm7, hp7, hn7, hs7, hw7⟩ :=
    getTitlePropertyName_exec hr6 hc6 ht6
  rw [h7, bindE_ok]
  obtain ⟨w₈, h8, hm8, hcache8, hr8, hp8, hn8, hs8, hw8, htr8, hmut8⟩ :=
    getDatabase_exec hr7 hc7
  rw [h8, bindE_ok]
  rw [findPage_exec i.identifier hr8, bindE_ok]
  have hpA : w₈.pages = w.pages := by rw [hp8, hp7, hp6, hp5, hp4, hp3, hp2, hp1]
  have hnA : w₈.nextPageId = w.nextPageId := by rw [hn8, hn7, hn6, hn5, hn4, hn3, hn2, hn1]
  have hsA : w₈.summary = w.summary := by rw [hs8, hs7, hs6, hs5, hs4, hs3, hs2, hs1]
  have hstA : schemaTypes w₈.remoteSchema = schemaTypes w.remoteSchema := by
    rw [hm8, hm7, hst6, hst5, hst4, hst3, hst2, hst1]
  have hc8' : w₈.dbSchemaCache = some w₈.remoteSchema := by rw [hcache8, hm8]
  set P : List (String × PropValue) :=
    (if Option.any (fun pd => pd.type == "rich_text") (getPropDef w₇.remoteSchema "Title") = true
      then setProp (buildProps tn i (mappedOf i) w₈.nowStr) "Title"
        (PropValue.richText [i.title.getD ""])
      else buildProps tn i (mappedOf i) w₈.nowStr) with hPdef
  set w₉ : W := { remoteSchema := w₈.remoteSchema, dbSchemaCache := w₈.dbSchemaCache, pages := w₈.pages, nextPageId := w₈.nextPageId, summary := w₈.summary, responses := w₈.responses, trace := w₈.trace ++ [Event.queryDb i.identifier], nowStr := w₈.nowStr } with hw9def
  have hr9 : w₉.responses = [] := hr8
  have hPid : getVal P "Linear Issue ID" = some (.richText [i.identifier]) := by
    rw [hPdef]
    exact prop_if_id_val _ tn i (mappedOf i) w₈.nowStr
  have hPnodup : (keysOf P).Nodup := by
    rw [hPdef]
    exact prop_if_nodup _ tn i (mappedOf i) w₈.nowStr
  cases hfind : List.find? (fun pg => pageIdValue pg == some i.identifier) w₈.pages with
  | none =>
    dsimp only
    have hnmatch : ¬ hasMatch w i.identifier := by
      rw [hasMatch_iff_find, ← hpA, hfind]
      simp
    rw [notionWrite_nil "POST" "https://api.notion.com/v1/pages" (createPageEff P) hr9,
      bindE_ok]
    have hrC : (createPageEff P { w₉ with
        trace := w₉.trace ++ [Event.write "POST" "https://api.notion.com/v1/pages"] }).responses
        = [] := hr8
    obtain ⟨wF, hFeq, hFpages, hFresp, hFrem, hFcache, hFnid, hFsum, hFnow, hFmut⟩ :=
      finishUpsert_exec w₉.nextPageId Action.created hrC
    rw [hFeq]
    have hCpages : (createPageEff P { w₉ with
        trace := w₉.trace ++ [Event.write "POST" "https://api.notion.com/v1/pages"] }).pages
        = w₈.pages ++ [{ pid := w₈.nextPageId, props := P }] := rfl
    have hCnow : (createPageEff P { w₉ with
        trace := w₉.trace ++ [Event.write "POST" "https://api.notion.com/v1/pages"] }).nowStr
        = w₈.nowStr := rfl
    rw [hCpages, hCnow] at hFpages
    have hmapf : ∀ (l : List Page), (l.map (fun q : Page =>
        if q.pid = w₉.nextPageId
        then { q with props := mergeProps q.props (lastSyncProps w₈.nowStr) } else q)).map
          (fun x : Page => x.pid) = l.map (fun x : Page => x.pid) := by
      intro l
      rw [List.map_map]
      exact List.map_congr_left (fun q _ => patchF_pid _ _ q)
    refine ⟨Action.created, wF, rfl, ⟨hFresp, Or.inr ?_, ?_, ?_, ?_⟩, ?_, ?_, ?_, ?_, ?_⟩
    · rw [hFcache, hFrem]
      exact hc8'
    · refine titled_of_schemaTypes_eq ?_ ht
      rw [hFrem]
      exact hstA
    · have hkey : wF.pages.map (fun x : Page => x.pid)
          = w.pages.map (fun x : Page => x.pid) ++ [w.nextPageId] := by
        rw [hFpages, hmapf, List.map_append, List.map_cons, List.map_nil, hpA]
        dsimp only
        rw [hnA]
      rw [hkey, List.nodup_append]
      refine ⟨hwf.1, List.nodup_singleton _, ?_⟩
      intro a ha hb
      rw [List.mem_singleton] at hb
      subst hb
      obtain ⟨q, hq, hqa⟩ := List.mem_map.mp ha
      have hqa' : q.pid = w.nextPageId := hqa
      have hlt := hwf.2 q hq
      exact absurd hqa' (Nat.ne_of_lt hlt)
    · intro pg' hpg'
      rw [hFpages] at hpg'
      obtain ⟨q, hq, rfl⟩ := List.mem_map.mp hpg'
      rw [hFnid]
      dsimp only
      rw [patchF_pid]
      show q.pid < w₈.nextPageId + 1
      rcases List.mem_append.mp hq with hql | hqr
      · have h1 := hwf.2 q (by rw [← hpA]; exact hql)
        have h2 : w₈.nextPageId = w.nextPageId := hnA
        omega
      · rw [List.mem_singleton] at hqr
        subst hqr
        show w₈.nextPageId < w₈.nextPageId + 1
        omega
    · rw [hFsum]
      exact hsA
    · intro x hx
      rw [hasMatch] at hx ⊢
      obtain ⟨q, hq, hvx⟩ := hx
      rw [hFpages]
      exact map_lastSync_match (List.mem_append_left _ (by rw [hpA]; exact hq)) hvx
    · rw [hasMatch, hFpages]
      have hvNew : pageIdValue { pid := w₈.nextPageId, props := P } = some i.identifier :=
        @pageIdValue_eq_of_getVal { pid := w₈.nextPageId, props := P } i.identifier hPid
      exact map_lastSync_match (List.mem_append_right _ (List.mem_singleton.mpr rfl)) hvNew
    · intro hm
      exact absurd hm hnmatch
    · intro _
      rfl
  | some pg =>
    dsimp only
    have hpgmem : pg ∈ w₈.pages := List.mem_of_find?_eq_some hfind
    have hpgval : pageIdValue pg = some i.identifier := by
      have h := List.find?_some hfind
      simpa using h
    have hmatch : hasMatch w i.identifier := by
      rw [hasMatch]
      exact ⟨pg, by rw [← hpA]; exact hpgmem, hpgval⟩
    rw [notionWrite_nil "PATCH" (pageEndpoint pg.pid) (patchPageEff pg.pid P) hr9, bindE_ok]
    have hrC : (patchPageEff pg.pid P { w₉ with
        trace := w₉.trace ++ [Event.write "PATCH" (pageEndpoint pg.pid)] }).responses = [] := hr8
    obtain ⟨wF, hFeq, hFpages, hFresp, hFrem, hFcache, hFnid, hFsum, hFnow, hFmut⟩ :=
      finishUpsert_exec pg.pid Action.updated hrC
    rw [hFeq]
    have hCpages : (patchPageEff pg.pid P { w₉ with
        trace := w₉.trace ++ [Event.write "PATCH" (pageEndpoint pg.pid)] }).pages
        = w₈.pages.map (fun q : Page =>
            if q.pid = pg.pid then { q with props := mergeProps q.props P } else q) := rfl
    have hCnow : (patchPageEff pg.pid P { w₉ with
        trace := w₉.trace ++ [Event.write "PATCH" (pageEndpoint pg.pid)] }).nowStr
        = w₈.nowStr := rfl
    rw [hCpages, hCnow] at hFpages
    have hinj : ∀ q ∈ w₈.pages, q.pid = pg.pid → q = pg := by
      intro q hq he
      have hnd : (w₈.pages.map (fun x : Page => x.pid)).Nodup := by rw [hpA]; exact hwf.1
      exact List.inj_on_of_nodup_map hnd hq hpgmem he
    have hval1 : ∀ q ∈ w₈.pages,
        pageIdValue (if q.pid = pg.pid then { q with props := mergeProps q.props P } else q)
          = pageIdValue q := by
      intro q hq
      by_cases hqp : q.pid = pg.pid
      · have hqe : q = pg := hinj q hq hqp
        subst hqe
        rw [if_pos rfl, hpgval]
        apply pageIdValue_eq_of_getVal
        show getVal (mergeProps q.props P) "Linear Issue ID" = _
        exact getVal_merge_of_nodup hPnodup hPid q.props
      · rw [if_neg hqp]
    refine ⟨Action.updated, wF, rfl, ⟨hFresp, Or.inr ?_, ?_, ?_, ?_⟩, ?_, ?_, ?_, ?_, ?_⟩
    · rw [hFcache, hFrem]
      exact hc8'
    · refine titled_of_schemaTypes_eq ?_ ht
      rw [hFrem]
      exact hstA
    · have hmapf2 : ∀ (l : List Page), (l.map (fun q : Page =>
          if q.pid = pg.pid
          then { q with props := mergeProps q.props (lastSyncProps w₈.nowStr) } else q)).map
            (fun x : Page => x.pid) = l.map (fun x : Page => x.pid) := by
        intro l
        rw [List.map_map]
        exact List.map_congr_left (fun q _ => patchF_pid _ _ q)
      have hmapf1 : (w₈.pages.map (fun q : Page =>
          if q.pid = pg.pid then { q with props := mergeProps q.props P } else q)).map
            (fun x : Page => x.pid) = w₈.pages.map (fun x : Page => x.pid) := by
        rw [List.map_map]
        exact List.map_congr_left (fun q _ => patchF_pid _ _ q)
      rw [hFpages, hmapf2, hmapf1, hpA]
      exact hwf.1
    · intro pg' hpg'
      rw [hFpages] at hpg'
      obtain ⟨q', hq', rfl⟩ := List.mem_map.mp hpg'
      obtain ⟨q, hq, rfl⟩ := List.mem_map.mp hq'
      rw [hFnid]
      dsimp only
      rw [patchF_pid, patchF_pid]
      show q.pid < w₈.nextPageId
      have h1 := hwf.2 q (by rw [← hpA]; exact hq)
      have h2 : w₈.nextPageId = w.nextPageId := hnA
      omega
    · rw [hFsum]
      exact hsA
    · intro x hx
      rw [hasMatch] at hx ⊢
      obtain ⟨q, hq, hvx⟩ := hx
      have hq8 : q ∈ w₈.pages := by rw [hpA]; exact hq
      have hv' : pageIdValue (if q.pid = pg.pid
          then { q with props := mergeProps q.props P } else q) = some x := by
        rw [hval1 q hq8]
        exact hvx
      rw [hFpages]
      exact map_lastSync_match (List.mem_map_of_mem _ hq8) hv'
    · rw [hasMatch]
      have hv' : pageIdValue (if pg.pid = pg.pid
          then { pg with props := mergeProps pg.props P } else pg) = some i.identifier := by
        rw [hval1 pg hpgmem]
        exact hpgval
      rw [hFpages]
      exact map_lastSync_match (List.mem_map_of_mem _ hpgmem) hv'
    · intro _
      refine ⟨rfl, ?_⟩
      rw [hFpages, List.length_map, List.length_map, hpA]
    · intro hnm
      exact absurd hmatch hnm

theorem processIssue_spec (i : Issue) {w : W} (hInv : Inv w) :
    Inv (processIssue i w) ∧
    (∀ x, hasMatch w x → hasMatch (processIssue i w) x) ∧
    (hasRequiredLabel i = true → hasMatch (processIssue i w) i.identifier) ∧
    ((hasRequiredLabel i = true → hasMatch w i.identifier) →
      (processIssue i w).summary.created = w.summary.created) := by
  by_cases hl : hasRequiredLabel i = true
  · have hInv₀ : Inv (incProcessed w) := hInv
    obtain ⟨a, w', hup, hInv', hsum', hpres, hnew, hupd, hcrt⟩ := upsert_main hl hInv₀
    by_cases hm' : hasMatch (incProcessed w) i.identifier
    · obtain ⟨ha, hlen⟩ := hupd hm'
      subst ha
      have hpe : processIssue i w = { w' with summary := { w'.summary with
          updated := w'.summary.updated + 1,
          items := w'.summary.items ++ [updatedLine i] } } := by
        rw [processIssue]
        dsimp only
        rw [hup]
      refine ⟨?_, ?_, ?_, ?_⟩
      · rw [hpe]
        exact hInv'
      · intro x hx
        rw [hpe]
        exact hpres x hx
      · intro _
        rw [hpe]
        exact hnew
      · intro _
        rw [hpe]
        show w'.summary.created = w.summary.created
        rw [hsum']
        rfl
    · have ha := hcrt hm'
      subst ha
      have hpe : processIssue i w = { w' with summary := { w'.summary with
          created := w'.summary.created + 1,
          items := w'.summary.items ++ [createdLine i] } } := by
        rw [processIssue]
        dsimp only
        rw [hup]
      refine ⟨?_, ?_, ?_, ?_⟩
      · rw [hpe]
        exact hInv'
      · intro x hx
        rw [hpe]
        exact hpres x hx
      · intro _
        rw [hpe]
        exact hnew
      · intro hm
        exact absurd (hm hl) hm'
  · have hl' : hasRequiredLabel i = false := by
      cases h : hasRequiredLabel i
      · rfl
      · exact absurd h hl
    have hpe : processIssue i w
        = { incProcessed w with summary := skipBump (incProcessed w).summary i } := by
      rw [processIssue]
      dsimp only
      rw [upsert_skip hl']
    refine ⟨?_, ?_, ?_, ?_⟩
    · rw [hpe]
      exact hInv
    · intro x hx
      rw [hpe]
      exact hx
    · intro h
      exact absurd h hl
    · intro _
      rw [hpe]
      rfl

theorem runIssues_spec (issues : List Issue) :
    ∀ w : W, Inv w →
      Inv (runIssues issues w) ∧
      (∀ x, hasMatch w x → hasMatch (runIssues issues w) x) ∧
      (∀ i ∈ issues, hasRequiredLabel i = true →
        hasMatch (runIssues issues w) i.identifier) := by
  induction issues with
  | nil =>
    intro w hInv
    refine ⟨hInv, fun x hx => hx, ?_⟩
    intro i hi
    exact absurd hi (List.not_mem_nil i)
  | cons i rest ih =>
    intro w hInv
    obtain ⟨hInv', hpres, hnew, _⟩ := processIssue_spec i hInv
    obtain ⟨hInvR, hpresR, hallR⟩ := ih (processIssue i w) hInv'
    have hrun : runIssues (i :: rest) w = runIssues rest (processIssue i w) := rfl
    rw [hrun]
    refine ⟨hInvR, fun x hx => hpresR x (hpres x hx), ?_⟩
    intro j hj hlj
    rcases List.mem_cons.mp hj with he | hjr
    · subst he
      exact hpresR _ (hnew hlj)
    · exact hallR j hjr hlj

theorem runIssues_created_stable (issues : List Issue) :
    ∀ w : W, Inv w → (∀ i ∈ issues, hasRequiredLabel i = true → hasMatch w i.identifier) →
      (runIssues issues w).summary.created = w.summary.created := by
  induction issues with
  | nil =>
    intro w _ _
    rfl
  | cons i rest ih =>
    intro w hInv hall
    obtain ⟨hInv', hpres, _, hcreated⟩ := processIssue_spec i hInv
    have hrun : runIssues (i :: rest) w = runIssues rest (processIssue i w) := rfl
    rw [hrun]
    have h1 := ih (processIssue i w) hInv'
      (fun j hj hlj => hpres _ (hall j (List.mem_cons_of_mem i hj) hlj))
    rw [h1]
    exact hcreated (hall i (List.mem_cons_self i rest))

/-- C1: in an environment where every destination call succeeds and the
destination store is well formed, `upsert` on a labeled record whose external
identifier already has a matching destination page takes the update branch:
it returns `.updated` and leaves the number of destination pages unchanged,
never creating a page; consequently running the sync loop twice in succession
over the same records produces zero additional created records in the second
run. -/
theorem claim_C1_idempotent_upsert :
    (∀ (i : Issue) (w : W), Inv w → hasRequiredLabel i = true → hasMatch w i.identifier →
      ∃ w', upsert i w = (.ok .updated, w') ∧ w'.pages.length = w.pages.length) ∧
    (∀ (issues : List Issue) (w : W), Inv w →
      (runIssues issues (runIssues issues w)).summary.created
        = (runIssues issues w).summary.created) := by
  constructor
  · intro i w hInv hlab hm
    obtain ⟨a, w', hup, _, _, _, _, hupd, _⟩ := upsert_main hlab hInv
    obtain ⟨ha, hlen⟩ := hupd hm
    subst ha
    exact ⟨w', hup, hlen⟩
  · intro issues w hInv
    obtain ⟨hInvR, _, hallR⟩ := runIssues_spec issues w hInv
    exact runIssues_created_stable issues (runIssues issues w) hInvR hallR

theorem claim_C1_witness :
    Inv matchedW ∧ hasRequiredLabel plainIssue = true ∧
    hasMatch matchedW plainIssue.identifier ∧
    (∃ w', upsert plainIssue matchedW = (.ok .updated, w') ∧
      w'.pages.length = matchedW.pages.length) ∧
    (runIssues [plainIssue] (runIssues [plainIssue] baseW)).summary.created
      = (runIssues [plainIssue] baseW).summary.created := by
  have hInvM : Inv matchedW :=
    ⟨rfl, Or.inl rfl, ⟨("Name", { type := "title", options := [] }), by decide, rfl⟩,
     by decide, by decide⟩
  have hInvB : Inv baseW :=
    ⟨rfl, Or.inl rfl, ⟨("Name", { type := "title", options := [] }), by decide, rfl⟩,
     by decide, by decide⟩
  have hlab : hasRequiredLabel plainIssue = true := by decide
  have hm : hasMatch matchedW plainIssue.identifier :=
    ⟨{ pid := 0, props := [("Linear Issue ID", .richText ["ENG-1"])] }, by decide, by decide⟩
  exact ⟨hInvM, hlab, hm,
    claim_C1_idempotent_upsert.1 plainIssue matchedW hInvM hlab hm,
    claim_C1_idempotent_upsert.2 [plainIssue] baseW hInvB⟩

end LinearNotionSync
